import Mathlib

/-!
  # Verification of the gdrive task scheduler core

  A shallow embedding of the filesystem-coordinated task scheduler
  (`scheduler.py`, `recovery.py`, `task_manager.py`, `models/task.py`,
  `utils/file_ops.py`, `utils/process_utils.py`) and proofs about it.

  Modelling conventions, kept uniform throughout:
  * Timestamps are integers (`Int`); each Python operation's calls to
    `datetime.now()` are modelled by a single per-invocation instant
    carried in the invocation context.
  * A YAML record is the structure `Rec` of the optional keys the code
    reads and writes; a dictionary key that is absent or `None` is `none`.
  * A directory is an association list of filename to file record; writes
    replace any entry of the same name, mirroring rename-over semantics.
  * Fallible primitives (lock acquisition, `open`, the write half of
    `atomic_write_yaml`, raw `os.rename`) are driven by a fault oracle
    `Faults`; an exception is modelled by the `Option`/flow structure the
    Python `try`/`except` blocks give it in the source.
  * `safe_rename` never raises in the source; its cross-device fallback
    outcomes are modelled by the oracle's `RenameRes`.
  * In `scheduler.py` the name `yaml` is not imported, so both
    `_get_task_priority` and `report_progress` raise `NameError` at their
    `yaml.safe_load` call, which their `except Exception` blocks swallow;
    the embedding reproduces exactly that control flow.
-/

namespace GdriveSched

/-- Timestamp value stored in a record field: a (nonempty) string that
either parses as an ISO timestamp, modelled by its instant, or is
malformed. An absent or empty (falsy) string is modelled by `none` at the
field, not by a `TimeVal`. -/
inductive TimeVal where
  | ts (t : Int)
  | malformed
deriving DecidableEq, Repr

/-- Result of parsing a stored timestamp field, as
`datetime.fromisoformat` does: the instant, or an exception (`none`). -/
def TimeVal.parse : TimeVal → Option Int
  | .ts t => some t
  | .malformed => none

/-- Outcome of the zero-signal probe `os.kill(pid, 0)` in
`utils/process_utils.py`. -/
inductive KillOutcome where
  | ok
  | noProcess
  | permissionDenied
  | otherError
deriving DecidableEq, Repr

/-- The keyed record persisted in a task or heartbeat file: the keys the
source reads or writes (`models/task.py` field table, heartbeat record).
An absent key or a `None` value is `none`. -/
structure Rec where
  priority : Option Int := none
  retries : Option Int := none
  session_id : Option String := none
  process_id : Option Int := none
  host : Option String := none
  started_at : Option TimeVal := none
  created_at : Option Int := none
  created_by : Option Int := none
  completed_at : Option Int := none
  success : Option Bool := none
  results : Option Int := none
  error : Option String := none
  duration_seconds : Option Int := none
  last_failed : Option Int := none
  failure_reason : Option String := none
  recovered_by : Option Int := none
  last_beat : Option TimeVal := none
deriving DecidableEq, Repr

/-- Decoded view of a file's bytes: `ok` when `yaml.safe_load` returns a
dictionary, `bad` when decoding raises (or yields a non-dictionary, which
every reader's `except` path also swallows). -/
inductive Content where
  | ok (d : Rec)
  | bad
deriving DecidableEq, Repr

/-- A file on disk: its modification time and decoded content. -/
structure FileRec where
  mtime : Int
  content : Content
deriving DecidableEq, Repr

/-- The directories of one queue rooted at `base_dir`. -/
inductive DirTag where
  | todo
  | inProgress
  | done
  | corrupted
  | status
deriving DecidableEq, Repr

/-- A directory: association list of filename to file record, in listing
order. -/
abbrev Dir := List (String × FileRec)

/-- The visible filesystem state of one queue. -/
structure SchedState where
  todo : Dir := []
  in_progress : Dir := []
  done : Dir := []
  corrupted : Dir := []
  status : Dir := []
deriving DecidableEq, Repr

/-- Outcome chosen by the fault oracle for one `safe_rename` call
(`utils/file_ops.py`): plain success, the copy-then-unlink fallback whose
unlink failed (both names end up present), or total failure with every
fallback swallowed (nothing happens). -/
inductive RenameRes where
  | ok
  | copyNoRemove
  | noop
deriving DecidableEq, Repr

/-- Fault oracle: which primitive calls fail, keyed by lock name or by
directory and filename. -/
structure Faults where
  lockFail : String → Bool
  readFail : DirTag → String → Bool
  writeFail : DirTag → String → Bool
  osRenameFail : DirTag → String → Bool
  renameRes : DirTag → String → DirTag → String → RenameRes

/-- The fault-free oracle: every primitive succeeds. -/
def noFaults : Faults where
  lockFail := fun _ => false
  readFail := fun _ _ => false
  writeFail := fun _ _ => false
  osRenameFail := fun _ _ => false
  renameRes := fun _ _ _ _ => .ok

/-- Environment of the process probe: the local hostname, whether
`/proc/<pid>` exists, and the outcome of the zero-signal send. -/
structure ProcEnv where
  localHost : String
  procExists : Int → Bool
  kill0 : Int → KillOutcome

/-- Per-invocation context: the instant, the caller's identity and
configuration (the staleness window in the same time unit as instants). -/
structure Ctx where
  now : Int
  pid : Int
  sessionId : String
  hostname : String
  shutdown : Bool := false
  window : Int
  procEnv : ProcEnv

/-- A `Task` object (`models/task.py`): filename, decoded data, and the
directory its `path` attribute points into (the basename of `path` always
equals `filename` in the source). -/
structure TaskView where
  filename : String
  data : Rec
  pathDir : DirTag
deriving DecidableEq, Repr

/-! ## Python truthiness of the field values the source tests -/

/-- Truthiness of an optional string (`None` and `""` are falsy). -/
def truthyS : Option String → Bool
  | none => false
  | some s => !(s == "")

/-- Truthiness of an optional integer (`None` and `0` are falsy). -/
def truthyI : Option Int → Bool
  | none => false
  | some i => !(i == 0)

/-- Truthiness of an optional timestamp string; a `TimeVal` models a
nonempty string, so any present value is truthy. -/
def truthyT : Option TimeVal → Bool
  | none => false
  | some _ => true

/-! ## Directory primitives -/

/-- Embedding of Python `str.endswith`: the last `len(t)` characters of
`s` are `t`. -/
def strEndsWith (s t : String) : Bool :=
  s.data.reverse.take t.data.length == t.data.reverse

/-- Embedding of Python `str.startswith`: the first `len(t)` characters
of `s` are `t`. -/
def strStartsWith (s t : String) : Bool :=
  s.data.take t.data.length == t.data

/-- Listing visibility (`utils/file_ops.py`, `get_yaml_files`): name ends
in `.yaml` and does not start with `.`. -/
def isVisibleName (n : String) : Bool :=
  strEndsWith n ".yaml" && !strStartsWith n "."

/-- Lookup of a filename in a directory (first occurrence). -/
def fsGet (d : Dir) (n : String) : Option FileRec :=
  match d with
  | [] => none
  | (m, r) :: rest => if m = n then some r else fsGet rest n

/-- Remove every entry of a filename from a directory. -/
def fsDel (d : Dir) (n : String) : Dir :=
  match d with
  | [] => []
  | (m, r) :: rest => if m = n then fsDel rest n else (m, r) :: fsDel rest n

/-- Materialize a filename with the given record, replacing any previous
entry; the new entry lists last, as a fresh directory entry. -/
def fsSet (d : Dir) (n : String) (r : FileRec) : Dir :=
  fsDel d n ++ [(n, r)]

/-- Read a directory component of the state. -/
def SchedState.dir (s : SchedState) : DirTag → Dir
  | .todo => s.todo
  | .inProgress => s.in_progress
  | .done => s.done
  | .corrupted => s.corrupted
  | .status => s.status

/-- Replace a directory component of the state. -/
def SchedState.setDir (s : SchedState) : DirTag → Dir → SchedState
  | .todo, d => { s with todo := d }
  | .inProgress, d => { s with in_progress := d }
  | .done, d => { s with done := d }
  | .corrupted, d => { s with corrupted := d }
  | .status, d => { s with status := d }

/-- State after deleting a filename from one directory. -/
def stDel (s : SchedState) (t : DirTag) (n : String) : SchedState :=
  s.setDir t (fsDel (s.dir t) n)

/-- State after writing a filename into one directory. -/
def stSet (s : SchedState) (t : DirTag) (n : String) (r : FileRec) : SchedState :=
  s.setDir t (fsSet (s.dir t) n r)

/-! ## file_ops.py -/

/-- Visible listing (`get_yaml_files`): names of a directory's visible
entries, in listing order; a missing directory would list empty, and the
state's directories always exist (the scheduler creates them). -/
def get_yaml_files (d : Dir) : List String :=
  (d.map Prod.fst).filter isVisibleName

/-- Embedding of `safe_rename`: on success the record moves (mtime
preserved by `os.rename`); the degraded outcomes follow the oracle. A
missing source makes every fallback raise and be swallowed: no change.
The function never raises. -/
def safe_rename (F : Faults) (sd : DirTag) (sn : String) (dd : DirTag) (dn : String)
    (s : SchedState) : SchedState :=
  match fsGet (s.dir sd) sn with
  | none => s
  | some r =>
    match F.renameRes sd sn dd dn with
    | .ok => stSet (stDel s sd sn) dd dn r
    | .copyNoRemove => stSet s dd dn r
    | .noop => s

/-- Embedding of `atomic_write_yaml path data`: dump into `path.tmp`
(raising when the oracle says the write fails — `none`), then
`safe_rename(path.tmp, path)`. The fresh file's mtime is the instant. -/
def atomic_write_yaml (F : Faults) (now : Int) (t : DirTag) (n : String) (d : Rec)
    (s : SchedState) : Option SchedState :=
  if F.writeFail t n then none
  else
    some (safe_rename F t (n ++ ".tmp") t n
      (stSet s t (n ++ ".tmp") { mtime := now, content := .ok d }))

/-- Embedding of raw `os.rename` (used by `create_task`): replaces the
destination on success, raises (`none`) when the oracle fails it or the
source is missing. -/
def osRename (F : Faults) (sd : DirTag) (sn : String) (dd : DirTag) (dn : String)
    (s : SchedState) : Option SchedState :=
  if F.osRenameFail dd dn then none
  else
    match fsGet (s.dir sd) sn with
    | none => none
    | some r => some (stSet (stDel s sd sn) dd dn r)

/-- Embedding of `try_remove`: remove if present, swallowing errors. -/
def try_remove (s : SchedState) (t : DirTag) (n : String) : SchedState :=
  stDel s t n

/-- Embedding of `cleanup_temp_files`: remove hidden entries older than
the threshold whose names carry a transient suffix. -/
def cleanup_temp_files (now : Int) (t : DirTag) (olderThan : Int) (s : SchedState) :
    SchedState :=
  s.setDir t ((s.dir t).filter fun e =>
    !(strStartsWith e.1 "." && decide (now - e.2.mtime > olderThan) &&
      (strEndsWith e.1 ".reserved" || strEndsWith e.1 ".completing" ||
       strEndsWith e.1 ".recovering" || strEndsWith e.1 ".tmp")))

/-! ## process_utils.py -/

/-- Embedding of `is_process_running` (`utils/process_utils.py`). The
`pid` argument is `none` when `int(pid)` raises. Every exception of the
probe — `PermissionError` included — is caught and yields `false`. -/
def is_process_running (E : ProcEnv) (pid : Option Int) (hostname : Option String) :
    Bool :=
  if truthyS hostname && !(hostname == some E.localHost) then false
  else
    match pid with
    | none => false
    | some p =>
      if p ≤ 0 then false
      else if E.procExists p then true
      else
        match E.kill0 p with
        | .ok => true
        | _ => false

/-! ## models/task.py -/

/-- Embedding of `Task.mark_started`: stamp claim-time ownership fields. -/
def mark_started (now : Int) (pid : Int) (host sessionId : String) (d : Rec) : Rec :=
  { d with started_at := some (.ts now), process_id := some pid,
           host := some host, session_id := some sessionId }

/-- Embedding of `Task.mark_completed`: stamp the terminal fields. The
duration is `now - started_at` with no clamping; when `started_at` is
absent (a `TypeError` from `fromisoformat(None)`) or malformed (a
`ValueError`), the `except` branch stores `0`. -/
def mark_completed (now : Int) (success : Bool) (results : Option Int)
    (error : Option String) (d : Rec) : Rec :=
  { d with completed_at := some now, success := some success,
           results := results, error := error,
           duration_seconds := some (match d.started_at with
             | some (.ts t) => now - t
             | _ => 0) }

/-! ## task_manager.py -/

/-- Suffix normalization in `create_task`: append `.yaml` unless already
present. -/
def ensureYamlSuffix (tid : String) : String :=
  if strEndsWith tid ".yaml" then tid else tid ++ ".yaml"

/-- The filename `create_task` uses: the explicit `task_id` when given,
else the synthesized `task_<epoch>_<rand8>` (the random component is a
parameter), both `.yaml`-suffixed. -/
def createName (c : Ctx) (task_id : Option String) (rand : String) : String :=
  ensureYamlSuffix (match task_id with
    | none => "task_" ++ toString c.now ++ "_" ++ rand
    | some tid => tid)

/-- The record `create_task` persists: the payload merged with the
creation fields (`task_manager.py` lines 54-60). -/
def createdRec (c : Ctx) (task_data : Rec) : Rec :=
  { task_data with
    created_at := some c.now, created_by := some c.pid,
    retries := some 0, session_id := some c.sessionId }

/-- Embedding of `TaskManager.create_task`: merge the creation fields into
a copy of the payload (`createdRec`), then under the `task_create` lock
atomically write `todo/<tid>.tmp` and `os.rename` it into place. Any
failure runs the `except` branch: remove the `.tmp` candidate, return
`None`. (A write that raises mid-dump is modelled as leaving no file.) -/
def create_task (F : Faults) (c : Ctx) (task_data : Rec) (task_id : Option String)
    (rand : String) (s : SchedState) : Option String × SchedState :=
  let tid := createName c task_id rand
  let d := createdRec c task_data
  if F.lockFail "task_create" then
    (none, try_remove s .todo (tid ++ ".tmp"))
  else
    match atomic_write_yaml F c.now .todo (tid ++ ".tmp") d s with
    | none => (none, try_remove s .todo (tid ++ ".tmp"))
    | some s1 =>
      match osRename F .todo (tid ++ ".tmp") .todo tid s1 with
      | none => (none, try_remove s1 .todo (tid ++ ".tmp"))
      | some s2 => (some tid, s2)

/-- Report of `TaskManager.count_tasks`. -/
structure Counts where
  todo : Nat
  in_progress : Nat
  done : Nat
  corrupted : Nat
deriving DecidableEq, Repr

/-- Listing of a possibly missing directory as `get_yaml_files` sees it:
a missing directory lists empty, otherwise the visible names. -/
def get_yaml_files_at : Option (List String) → List String
  | none => []
  | some names => names.filter isVisibleName

/-- Embedding of `TaskManager.count_tasks` over the listings of the four
directories (`none` = the directory is missing). The first three counts
go through `get_yaml_files`; the `corrupted` count is `len(os.listdir(...))`
over every entry, and a missing directory leaves the initial `0` via the
`except` branch. -/
def count_tasks (todoL iprL doneL corrL : Option (List String)) : Counts :=
  { todo := (get_yaml_files_at todoL).length,
    in_progress := (get_yaml_files_at iprL).length,
    done := (get_yaml_files_at doneL).length,
    corrupted := match corrL with
      | none => 0
      | some l => l.length }

/-! ## recovery.py -/

/-- One status-directory entry's contribution to the active session set
(`TaskRecovery._get_active_sessions` loop body): `some sid` when the file
is a `.heartbeat` whose mtime and decoded `last_beat` are both within the
window — the contribution is `data.get('session_id')`, which is `none`
when that key is missing — and `none` (no contribution) otherwise. -/
def heartbeatActive (F : Faults) (now window : Int) (e : String × FileRec) :
    Option (Option String) :=
  if !(strEndsWith e.1 ".heartbeat") then none
  else if decide (now - e.2.mtime > window) then none
  else if F.readFail .status e.1 then none
  else
    match e.2.content with
    | .bad => none
    | .ok d =>
      match d.last_beat with
      | none => none
      | some tv =>
        match tv.parse with
        | none => none
        | some t => if decide (now - t ≤ window) then some d.session_id else none

/-- Embedding of `TaskRecovery._get_active_sessions`: the contributions of
the status directory's entries, in listing order (the Python set is
modelled by this list up to membership). -/
def get_active_sessions (F : Faults) (now window : Int) (status : Dir) :
    List (Option String) :=
  status.filterMap (heartbeatActive F now window)

/-- Staleness classification of one decoded in-progress record
(`recover_stale_tasks` body): the `if`/`elif` chain of the source. -/
def is_stale_record (active : List (Option String)) (E : ProcEnv) (now window : Int)
    (d : Rec) : Bool :=
  if truthyS d.session_id && !(active.contains d.session_id) then true
  else if truthyI d.process_id && !(is_process_running E d.process_id d.host) then true
  else
    match d.started_at with
    | some tv =>
      match tv.parse with
      | some t => decide (now - t > window)
      | none => true
    | none => true

/-- The record recovery republishes for a stale task: the decoded record
with the recovery fields updated (`recovery.py` lines 77-82). -/
def recoveredRec (c : Ctx) (d : Rec) : Rec :=
  { d with retries := some (d.retries.getD 0 + 1),
           last_failed := some c.now,
           failure_reason := some "Stale task recovery",
           recovered_by := some c.pid }

/-- One iteration of the recovery scan for filename `x`: open and decode
(a failure skips the entry), classify, and when stale rename to the
`.recovering` marker, rewrite the recovery fields, publish into `todo/`,
drop the marker and count. A write failure after the rename runs the
per-entry `except`: the entry is skipped with the marker state kept. -/
def recover_one (F : Faults) (c : Ctx) (active : List (Option String)) (acc : Int × SchedState)
    (x : String) : Int × SchedState :=
  let s := acc.2
  if F.readFail .inProgress x then acc
  else
    match fsGet s.in_progress x with
    | none => acc
    | some r =>
      match r.content with
      | .bad => acc
      | .ok d =>
        if is_stale_record active c.procEnv c.now c.window d then
          let s1 := safe_rename F .inProgress x .inProgress ("." ++ x ++ ".recovering") s
          let d1 := recoveredRec c d
          match atomic_write_yaml F c.now .todo (x ++ ".tmp") d1 s1 with
          | none => (acc.1, s1)
          | some s2 =>
            let s3 := safe_rename F .todo (x ++ ".tmp") .todo x s2
            let s4 := try_remove s3 .inProgress ("." ++ x ++ ".recovering")
            (acc.1 + 1, s4)
        else acc

/-- Embedding of `TaskRecovery.recover_stale_tasks`: compute the active
session set, then under the `stale_check` lock scan the snapshot of
visible in-progress names; a lock-acquisition failure runs the outer
`except` and returns the count so far, `0`. -/
def recover_stale_tasks (F : Faults) (c : Ctx) (s : SchedState) : Int × SchedState :=
  let active := get_active_sessions F c.now c.window s.status
  if F.lockFail "stale_check" then (0, s)
  else (get_yaml_files s.in_progress).foldl (recover_one F c active) (0, s)

/-! ## scheduler.py -/

/-- Embedding of `TaskScheduler._get_task_priority`. The source opens the
file and then calls `yaml.safe_load`, but the name `yaml` is not imported
in `scheduler.py`: the call raises `NameError`, the `except Exception`
returns `0`. An open failure takes the same `except` path. The function
therefore returns `0` on every input. -/
def get_task_priority (F : Faults) (s : SchedState) (filename : String) : Int :=
  if F.readFail .todo filename then 0
  else
    match fsGet s.todo filename with
    | none => 0
    | some _ => 0

/-- Stable descending insertion of one element by key: equal keys keep the
inserted (originally earlier) element first, the stability Python's
`list.sort(key=..., reverse=True)` guarantees. -/
def insertByKeyDesc (key : String → Int) (x : String) : List String → List String
  | [] => [x]
  | y :: ys => if key y ≤ key x then x :: y :: ys else y :: insertByKeyDesc key x ys

/-- Stable descending sort by key, modelling
`tasks.sort(key=..., reverse=True)`. -/
def sortByKeyDesc (key : String → Int) : List String → List String
  | [] => []
  | x :: xs => insertByKeyDesc key x (sortByKeyDesc key xs)

/-- Embedding of `TaskScheduler.get_next_task`: fast-fail on shutdown,
clean orphan transients in `todo/`, optionally run recovery, then under
`todo_lock` list, sort by priority and decode the head with
`Task.from_file`; every failure inside the `try` returns `None`. -/
def get_next_task (F : Faults) (c : Ctx) (check_stale : Bool) (s : SchedState) :
    Option TaskView × SchedState :=
  if c.shutdown then (none, s)
  else
    let s1 := cleanup_temp_files c.now .todo 3600 s
    let s2 := if check_stale then (recover_stale_tasks F c s1).2 else s1
    if F.lockFail "todo_lock" then (none, s2)
    else
      let tasks := get_yaml_files s2.todo
      if tasks.isEmpty then (none, s2)
      else
        let sorted := sortByKeyDesc (get_task_priority F s2) tasks
        let task_file := sorted.headD ""
        if F.readFail .todo task_file then (none, s2)
        else
          match fsGet s2.todo task_file with
          | none => (none, s2)
          | some r =>
            match r.content with
            | .bad => (none, s2)
            | .ok d => (some { filename := task_file, data := d, pathDir := .todo }, s2)

/-- Embedding of `TaskScheduler.move_to_in_progress`: under `task_move`
re-check existence at `task.path`, hide the source behind the `.reserved`
marker, stamp ownership, publish into `in_progress/` and drop the marker.
The `except` branch attempts to rename the marker back to `task.path`. -/
def move_to_in_progress (F : Faults) (c : Ctx) (t : TaskView) (s : SchedState) :
    Option TaskView × SchedState :=
  if c.shutdown then (none, s)
  else
    let reservedName := "." ++ t.filename ++ ".reserved"
    if F.lockFail "task_move" then
      (none, safe_rename F .todo reservedName t.pathDir t.filename s)
    else
      match fsGet (s.dir t.pathDir) t.filename with
      | none => (none, s)
      | some _ =>
        let s1 := safe_rename F t.pathDir t.filename .todo reservedName s
        let d1 := mark_started c.now c.pid c.hostname c.sessionId t.data
        match atomic_write_yaml F c.now .inProgress (t.filename ++ ".tmp") d1 s1 with
        | none => (none, safe_rename F .todo reservedName t.pathDir t.filename s1)
        | some s2 =>
          let s3 := safe_rename F .inProgress (t.filename ++ ".tmp") .inProgress t.filename s2
          let s4 := try_remove s3 .todo reservedName
          (some { t with data := d1, pathDir := .inProgress }, s4)

/-- Embedding of `TaskScheduler.move_to_done`: under `task_done` hide
`task.path` behind the `.completing` marker (with no existence re-check),
stamp the terminal fields, publish into `done/` and drop the marker. The
`except` branch attempts to rename the marker back. -/
def move_to_done (F : Faults) (c : Ctx) (t : TaskView) (success : Bool)
    (results : Option Int) (error : Option String) (s : SchedState) :
    Bool × SchedState :=
  if c.shutdown then (false, s)
  else
    let completingName := "." ++ t.filename ++ ".completing"
    if F.lockFail "task_done" then
      (false, safe_rename F .inProgress completingName t.pathDir t.filename s)
    else
      let s1 := safe_rename F t.pathDir t.filename .inProgress completingName s
      let d1 := mark_completed c.now success results error t.data
      match atomic_write_yaml F c.now .done (t.filename ++ ".tmp") d1 s1 with
      | none => (false, safe_rename F .inProgress completingName t.pathDir t.filename s1)
      | some s2 =>
        let s3 := safe_rename F .done (t.filename ++ ".tmp") .done t.filename s2
        let s4 := try_remove s3 .inProgress completingName
        (true, s4)

/-- Embedding of `TaskScheduler.report_progress`: under the per-task
progress lock, open and decode the on-disk record. The name `yaml` is not
imported in `scheduler.py`, so `yaml.safe_load` raises `NameError` and the
`except` returns `False` before any write: the operation always returns
`False` and never changes the state. The `pct` and `msg` arguments are
kept for signature fidelity; the source would only use them after the
decode that never succeeds. -/
def report_progress (F : Faults) (c : Ctx) (t : TaskView) (pct : Option Int)
    (msg : Option String) (s : SchedState) : Bool × SchedState :=
  if c.shutdown then (false, s)
  else if F.lockFail ("progress_" ++ t.filename) then (false, s)
  else if F.readFail t.pathDir t.filename then (false, s)
  else
    match pct, msg, fsGet (s.dir t.pathDir) t.filename with
    | _, _, none => (false, s)
    | _, _, some _ => (false, s)

/-! ## Operation sequences and observables -/

/-- One public-operation invocation with its caller-supplied arguments. -/
inductive Op where
  | create (task_data : Rec) (task_id : Option String) (rand : String)
  | getNext (check_stale : Bool)
  | moveInProgress (t : TaskView)
  | moveDone (t : TaskView) (success : Bool) (results : Option Int) (error : Option String)
  | reportProgress (t : TaskView) (pct : Option Int) (msg : Option String)
  | recover

/-- The state reached by one invocation. -/
def runOp (F : Faults) (c : Ctx) (op : Op) (s : SchedState) : SchedState :=
  match op with
  | .create task_data task_id rand => (create_task F c task_data task_id rand s).2
  | .getNext cs => (get_next_task F c cs s).2
  | .moveInProgress t => (move_to_in_progress F c t s).2
  | .moveDone t success results error => (move_to_done F c t success results error s).2
  | .reportProgress t pct msg => (report_progress F c t pct msg s).2
  | .recover => (recover_stale_tasks F c s).2

/-- The state reached by a sequence of invocations, each with its own
context. -/
def runSeq (F : Faults) : List (Ctx × Op) → SchedState → SchedState
  | [], s => s
  | (c, op) :: rest, s => runSeq F rest (runOp F c op s)

/-- The filename is a visible entry of the directory. -/
def visIn (d : Dir) (n : String) : Bool :=
  isVisibleName n && (fsGet d n).isSome

/-- In how many of the four primary directories the filename is visible. -/
def visCount (s : SchedState) (n : String) : Nat :=
  (if visIn (s.dir .todo) n then 1 else 0) + (if visIn (s.dir .inProgress) n then 1 else 0) +
    (if visIn (s.dir .done) n then 1 else 0) + (if visIn (s.dir .corrupted) n then 1 else 0)

/-- Invariant I1: no filename is visible in more than one of the four
primary directories. -/
def ExclusiveInv (s : SchedState) : Prop := ∀ n, visCount s n ≤ 1

/-- All filenames occurring in the four primary directories. -/
def allNames (s : SchedState) : List String :=
  (s.todo ++ s.in_progress ++ s.done ++ s.corrupted).map Prod.fst

/-- Executable form of `ExclusiveInv` for concrete states. -/
def exclusiveB (s : SchedState) : Bool :=
  (allNames s).all fun n => decide (visCount s n ≤ 1)

/-- The record of a filename's unique visible entry, searched in the
order todo, in_progress, done, corrupted. -/
def visRecord (s : SchedState) (n : String) : Option FileRec :=
  if isVisibleName n then
    match fsGet (s.dir DirTag.todo) n with
    | some r => some r
    | none =>
      match fsGet (s.dir DirTag.inProgress) n with
      | some r => some r
      | none =>
        match fsGet (s.dir DirTag.done) n with
        | some r => some r
        | none => fsGet (s.dir DirTag.corrupted) n
  else none

/-- The `retries` value persisted for a filename: the field of its visible
decoded record, when present. -/
def persistedRetries (s : SchedState) (n : String) : Option Int :=
  match visRecord s n with
  | some r =>
    match r.content with
    | .ok d => d.retries
    | .bad => none
  | none => none

/-! ## Name-shape lemmas -/

theorem strStartsWith_dot (x : String) : strStartsWith ("." ++ x) "." = true := by
  unfold strStartsWith
  rw [String.data_append]
  have h : (".".data : List Char) = ['.'] := rfl
  rw [h]
  simp

theorem strEndsWith_tmp_not_yaml (x : String) : strEndsWith (x ++ ".tmp") ".yaml" = false := by
  unfold strEndsWith
  rw [String.data_append]
  have h1 : (".tmp".data : List Char) = ['.', 't', 'm', 'p'] := rfl
  have h2 : (".yaml".data : List Char) = ['.', 'y', 'a', 'm', 'l'] := rfl
  rw [h1, h2]
  simp [List.take]

/-- A leading-dot name is never a visible entry. -/
theorem isVisibleName_dot (x : String) : isVisibleName ("." ++ x) = false := by
  unfold isVisibleName
  rw [strStartsWith_dot]
  simp

/-- A `.tmp` name is never a visible entry. -/
theorem isVisibleName_tmp (x : String) : isVisibleName (x ++ ".tmp") = false := by
  unfold isVisibleName
  rw [strEndsWith_tmp_not_yaml]
  simp

/-- A visible name does not start with a dot. -/
theorem not_startsWith_dot_of_visible {n : String} (h : isVisibleName n = true) :
    strStartsWith n "." = false := by
  unfold isVisibleName at h
  rcases Bool.and_eq_true_iff.mp h with ⟨-, h2⟩
  simpa using h2

/-! ## Directory lemmas -/

theorem fsGet_fsDel (d : Dir) (n m : String) :
    fsGet (fsDel d n) m = if m = n then none else fsGet d m := by
  induction d with
  | nil => simp [fsDel, fsGet]
  | cons e rest ih =>
    rcases e with ⟨a, r⟩
    simp only [fsDel]
    by_cases he : a = n
    · rw [if_pos he, ih]
      by_cases hm : m = n
      · simp [hm]
      · have hne : ¬ a = m := fun hc => hm (by rw [← hc, he])
        simp [fsGet, hm, hne]
    · rw [if_neg he]
      simp only [fsGet]
      by_cases ham : a = m
      · have hmn : ¬ m = n := fun hc => he (ham.trans hc)
        simp [ham, hmn]
      · simp [ham, ih]

theorem fsGet_append (a b : Dir) (m : String) :
    fsGet (a ++ b) m =
      match fsGet a m with
      | some r => some r
      | none => fsGet b m := by
  induction a with
  | nil => simp [fsGet]
  | cons e rest ih =>
    rcases e with ⟨x, r⟩
    simp only [List.cons_append, fsGet]
    by_cases hx : x = m
    · simp [hx]
    · simp [hx, ih]

theorem fsGet_fsSet (d : Dir) (n : String) (r : FileRec) (m : String) :
    fsGet (fsSet d n r) m = if m = n then some r else fsGet d m := by
  unfold fsSet
  rw [fsGet_append, fsGet_fsDel]
  by_cases hm : m = n
  · simp [hm, fsGet]
  · have hnm : ¬ n = m := fun hc => hm hc.symm
    simp only [if_neg hm, fsGet, if_neg hnm]
    cases fsGet d m <;> simp

/-- Filtering by a predicate that keeps every entry of a name leaves that
name's lookup unchanged. -/
theorem fsGet_filter_of_keep (d : Dir) (p : String × FileRec → Bool) (n : String)
    (h : ∀ r, p (n, r) = true) :
    fsGet (d.filter p) n = fsGet d n := by
  induction d with
  | nil => simp
  | cons e rest ih =>
    rcases e with ⟨x, r⟩
    by_cases hx : x = n
    · subst hx
      rw [List.filter_cons_of_pos (h r)]
      simp [fsGet]
    · cases hp : p (x, r)
      · rw [List.filter_cons_of_neg (by simp [hp])]
        rw [ih]
        simp [fsGet, hx]
      · rw [List.filter_cons_of_pos hp]
        simp [fsGet, hx, ih]

theorem dir_setDir (s : SchedState) (t u : DirTag) (d : Dir) :
    (s.setDir t d).dir u = if u = t then d else s.dir u := by
  cases t <;> cases u <;> simp [SchedState.setDir, SchedState.dir]

theorem dir_stSet (s : SchedState) (t u : DirTag) (n : String) (r : FileRec) :
    (stSet s t n r).dir u = if u = t then fsSet (s.dir t) n r else s.dir u := by
  unfold stSet
  rw [dir_setDir]

theorem dir_stDel (s : SchedState) (t u : DirTag) (n : String) :
    (stDel s t n).dir u = if u = t then fsDel (s.dir t) n else s.dir u := by
  unfold stDel
  rw [dir_setDir]

theorem visIn_fsSet (d : Dir) (n : String) (r : FileRec) (m : String) :
    visIn (fsSet d n r) m = if m = n then isVisibleName n else visIn d m := by
  unfold visIn
  rw [fsGet_fsSet]
  by_cases h : m = n
  · subst h
    simp
  · simp [h]

theorem visIn_fsDel (d : Dir) (n m : String) :
    visIn (fsDel d n) m = if m = n then false else visIn d m := by
  unfold visIn
  rw [fsGet_fsDel]
  by_cases h : m = n
  · simp [h]
  · simp [h]

theorem visIn_hidden {n : String} (h : isVisibleName n = false) (d : Dir) :
    visIn d n = false := by
  unfold visIn
  simp [h]

/-! ## State-level lemmas -/

theorem state_eq_of_dir {s1 s2 : SchedState} (h : ∀ u, s1.dir u = s2.dir u) :
    s1 = s2 := by
  cases s1
  cases s2
  have h1 := h .todo
  have h2 := h .inProgress
  have h3 := h .done
  have h4 := h .corrupted
  have h5 := h .status
  simp only [SchedState.dir] at h1 h2 h3 h4 h5
  simp [SchedState.mk.injEq]
  exact ⟨h1, h2, h3, h4, h5⟩

theorem fsDel_append (a b : Dir) (n : String) :
    fsDel (a ++ b) n = fsDel a n ++ fsDel b n := by
  induction a with
  | nil => simp [fsDel]
  | cons e rest ih =>
    rcases e with ⟨x, r⟩
    simp only [List.cons_append, fsDel]
    by_cases hx : x = n <;> simp [hx, ih]

theorem fsDel_idem (d : Dir) (n : String) : fsDel (fsDel d n) n = fsDel d n := by
  induction d with
  | nil => rfl
  | cons e rest ih =>
    rcases e with ⟨x, r⟩
    simp only [fsDel]
    by_cases hx : x = n <;> simp [hx, fsDel, ih]

theorem fsDel_fsSet_self (d : Dir) (m : String) (r : FileRec) :
    fsDel (fsSet d m r) m = fsDel d m := by
  unfold fsSet
  rw [fsDel_append, fsDel_idem]
  simp [fsDel]

theorem stDel_stSet_self (s : SchedState) (t : DirTag) (m : String) (r : FileRec) :
    stDel (stSet s t m r) t m = stDel s t m := by
  apply state_eq_of_dir
  intro u
  rw [dir_stDel, dir_stDel]
  by_cases hu : u = t
  · rw [if_pos hu, if_pos hu, dir_stSet, if_pos rfl, fsDel_fsSet_self]
  · rw [if_neg hu, if_neg hu, dir_stSet, if_neg hu]

/-! ## Net effect of the primitives under the fault-free oracle -/

theorem safe_rename_noFaults_none {sd : DirTag} {sn : String} (dd : DirTag) (dn : String)
    {s : SchedState} (h : fsGet (s.dir sd) sn = none) :
    safe_rename noFaults sd sn dd dn s = s := by
  unfold safe_rename
  rw [h]

theorem safe_rename_noFaults_some {sd : DirTag} {sn : String} (dd : DirTag) (dn : String)
    {s : SchedState} {r : FileRec} (h : fsGet (s.dir sd) sn = some r) :
    safe_rename noFaults sd sn dd dn s = stSet (stDel s sd sn) dd dn r := by
  unfold safe_rename
  rw [h]
  rfl

theorem atomic_write_noFaults (now : Int) (t : DirTag) (n : String) (d : Rec)
    (s : SchedState) :
    atomic_write_yaml noFaults now t n d s =
      some (stSet (stDel s t (n ++ ".tmp")) t n { mtime := now, content := .ok d }) := by
  unfold atomic_write_yaml
  have hget : fsGet ((stSet s t (n ++ ".tmp") { mtime := now, content := .ok d }).dir t)
      (n ++ ".tmp") = some { mtime := now, content := .ok d } := by
    rw [dir_stSet, if_pos rfl, fsGet_fsSet, if_pos rfl]
  rw [show noFaults.writeFail t n = false from rfl]
  simp only [Bool.false_eq_true, if_false]
  rw [safe_rename_noFaults_some t n hget, stDel_stSet_self]

theorem osRename_noFaults_some {sd : DirTag} {sn : String} (dd : DirTag) (dn : String)
    {s : SchedState} {r : FileRec} (h : fsGet (s.dir sd) sn = some r) :
    osRename noFaults sd sn dd dn s = some (stSet (stDel s sd sn) dd dn r) := by
  unfold osRename
  rw [h]
  rfl

/-! ## Visibility bookkeeping -/

theorem visIn_stSet_dir (s : SchedState) (t u : DirTag) (n : String) (r : FileRec)
    (m : String) :
    visIn ((stSet s t n r).dir u) m =
      if u = t then (if m = n then isVisibleName n else visIn (s.dir t) m)
      else visIn (s.dir u) m := by
  rw [dir_stSet]
  by_cases hu : u = t
  · rw [if_pos hu, if_pos hu, visIn_fsSet]
  · rw [if_neg hu, if_neg hu]

theorem visIn_stDel_dir (s : SchedState) (t u : DirTag) (n : String) (m : String) :
    visIn ((stDel s t n).dir u) m =
      if u = t then (if m = n then false else visIn (s.dir t) m)
      else visIn (s.dir u) m := by
  rw [dir_stDel]
  by_cases hu : u = t
  · rw [if_pos hu, if_pos hu, visIn_fsDel]
  · rw [if_neg hu, if_neg hu]

theorem visCount_stSet_hidden {n : String} (h : isVisibleName n = false)
    (s : SchedState) (t : DirTag) (r : FileRec) (m : String) :
    visCount (stSet s t n r) m = visCount s m := by
  have key : ∀ u : DirTag, visIn ((stSet s t n r).dir u) m = visIn (s.dir u) m := by
    intro u
    rw [visIn_stSet_dir]
    by_cases hu : u = t
    · rw [if_pos hu]
      by_cases hm : m = n
      · rw [if_pos hm, h, hm, hu, visIn_hidden h]
      · rw [if_neg hm, hu]
    · rw [if_neg hu]
  unfold visCount
  rw [key, key, key, key]

theorem visCount_stDel_hidden {n : String} (h : isVisibleName n = false)
    (s : SchedState) (t : DirTag) (m : String) :
    visCount (stDel s t n) m = visCount s m := by
  have key : ∀ u : DirTag, visIn ((stDel s t n).dir u) m = visIn (s.dir u) m := by
    intro u
    rw [visIn_stDel_dir]
    by_cases hu : u = t
    · rw [if_pos hu]
      by_cases hm : m = n
      · rw [if_pos hm, hm, hu, visIn_hidden h]
      · rw [if_neg hm, hu]
    · rw [if_neg hu]
  unfold visCount
  rw [key, key, key, key]

/-! ## Net states of the operations under the fault-free oracle -/

theorem create_task_noFaults (c : Ctx) (task_data : Rec) (task_id : Option String)
    (rand : String) (s : SchedState) :
    create_task noFaults c task_data task_id rand s =
      (some (createName c task_id rand),
        stSet
          (stDel (stDel s DirTag.todo ((createName c task_id rand ++ ".tmp") ++ ".tmp"))
            DirTag.todo (createName c task_id rand ++ ".tmp"))
          DirTag.todo (createName c task_id rand)
          { mtime := c.now, content := .ok (createdRec c task_data) }) := by
  unfold create_task
  rw [show noFaults.lockFail "task_create" = false from rfl]
  simp only [Bool.false_eq_true, if_false]
  rw [atomic_write_noFaults]
  have hget : fsGet ((stSet
      (stDel s DirTag.todo ((createName c task_id rand ++ ".tmp") ++ ".tmp"))
      DirTag.todo (createName c task_id rand ++ ".tmp")
      { mtime := c.now, content := .ok (createdRec c task_data) }).dir DirTag.todo)
      (createName c task_id rand ++ ".tmp") =
      some { mtime := c.now, content := .ok (createdRec c task_data) } := by
    rw [dir_stSet, if_pos rfl, fsGet_fsSet, if_pos rfl]
  dsimp only
  rw [osRename_noFaults_some _ _ hget, stDel_stSet_self]

/-- The result and state of `report_progress`: every branch — shutdown,
lock failure, open failure, and the unconditional `NameError` from the
missing `yaml` import in `scheduler.py` — returns `False` before any
write, for every fault oracle and every input. -/
theorem report_progress_state (F : Faults) (c : Ctx) (t : TaskView) (pct : Option Int)
    (msg : Option String) (s : SchedState) :
    report_progress F c t pct msg s = (false, s) := by
  unfold report_progress
  split_ifs <;> try rfl
  cases pct <;> cases msg <;> cases fsGet (s.dir t.pathDir) t.filename <;> rfl

/-- The state of `get_next_task` is the state after the cleanup and the
optional recovery pass: the selection under `todo_lock` is read-only in
every branch. -/
theorem get_next_task_state (F : Faults) (c : Ctx) (cs : Bool) (s : SchedState) :
    (get_next_task F c cs s).2 =
      if c.shutdown then s
      else if cs then (recover_stale_tasks F c (cleanup_temp_files c.now .todo 3600 s)).2
      else cleanup_temp_files c.now .todo 3600 s := by
  unfold get_next_task
  by_cases hs : c.shutdown
  · simp [hs]
  · simp only [hs, Bool.false_eq_true, if_false]
    cases cs
    · simp only [Bool.false_eq_true, if_false]
      generalize cleanup_temp_files c.now DirTag.todo 3600 s = s2
      split_ifs <;> try rfl
      rcases fsGet s2.todo
          ((sortByKeyDesc (get_task_priority F s2) (get_yaml_files s2.todo)).headD "") with
        _ | r
      · rfl
      · rcases r with ⟨mt, ct⟩
        cases ct <;> rfl
    · simp only [if_true]
      generalize (recover_stale_tasks F c (cleanup_temp_files c.now DirTag.todo 3600 s)).2 = s2
      split_ifs <;> try rfl
      rcases fsGet s2.todo
          ((sortByKeyDesc (get_task_priority F s2) (get_yaml_files s2.todo)).headD "") with
        _ | r
      · rfl
      · rcases r with ⟨mt, ct⟩
        cases ct <;> rfl

/-- Net effect of a successful `move_to_in_progress` under the fault-free
oracle: the source entry moves behind the `.reserved` marker, the stamped
record is published into `in_progress/`, and the marker and temporaries
are consumed. -/
theorem move_to_in_progress_noFaults {c : Ctx} (hsd : c.shutdown = false)
    (t : TaskView) {s : SchedState} {r0 : FileRec}
    (h : fsGet (s.dir t.pathDir) t.filename = some r0) :
    move_to_in_progress noFaults c t s =
      (some { t with data := mark_started c.now c.pid c.hostname c.sessionId t.data,
                     pathDir := .inProgress },
        stDel
          (stSet
            (stDel
              (stDel
                (stSet (stDel s t.pathDir t.filename) DirTag.todo
                  ("." ++ t.filename ++ ".reserved") r0)
                DirTag.inProgress ((t.filename ++ ".tmp") ++ ".tmp"))
              DirTag.inProgress (t.filename ++ ".tmp"))
            DirTag.inProgress t.filename
            { mtime := c.now,
              content := .ok (mark_started c.now c.pid c.hostname c.sessionId t.data) })
          DirTag.todo ("." ++ t.filename ++ ".reserved")) := by
  unfold move_to_in_progress
  rw [hsd]
  simp only [Bool.false_eq_true, if_false]
  rw [show noFaults.lockFail "task_move" = false from rfl]
  simp only [Bool.false_eq_true, if_false]
  rw [h]
  dsimp only
  rw [safe_rename_noFaults_some DirTag.todo ("." ++ t.filename ++ ".reserved") h]
  rw [atomic_write_noFaults]
  dsimp only
  have hget2 : fsGet ((stSet
      (stDel
        (stSet (stDel s t.pathDir t.filename) DirTag.todo
          ("." ++ t.filename ++ ".reserved") r0)
        DirTag.inProgress ((t.filename ++ ".tmp") ++ ".tmp"))
      DirTag.inProgress (t.filename ++ ".tmp")
      { mtime := c.now,
        content := .ok (mark_started c.now c.pid c.hostname c.sessionId t.data) }).dir
        DirTag.inProgress) (t.filename ++ ".tmp") =
      some { mtime := c.now,
             content := .ok (mark_started c.now c.pid c.hostname c.sessionId t.data) } := by
    rw [dir_stSet, if_pos rfl, fsGet_fsSet, if_pos rfl]
  rw [safe_rename_noFaults_some DirTag.inProgress t.filename hget2, stDel_stSet_self]
  rfl

/-- Net effect of `move_to_done` under the fault-free oracle when the
source entry exists: it moves behind the `.completing` marker, the
finalized record is published into `done/`, and the marker and
temporaries are consumed. -/
theorem move_to_done_noFaults {c : Ctx} (hsd : c.shutdown = false)
    (t : TaskView) (success : Bool) (results : Option Int) (error : Option String)
    {s : SchedState} {r0 : FileRec}
    (h : fsGet (s.dir t.pathDir) t.filename = some r0) :
    move_to_done noFaults c t success results error s =
      (true,
        stDel
          (stSet
            (stDel
              (stDel
                (stSet (stDel s t.pathDir t.filename) DirTag.inProgress
                  ("." ++ t.filename ++ ".completing") r0)
                DirTag.done ((t.filename ++ ".tmp") ++ ".tmp"))
              DirTag.done (t.filename ++ ".tmp"))
            DirTag.done t.filename
            { mtime := c.now,
              content := .ok (mark_completed c.now success results error t.data) })
          DirTag.inProgress ("." ++ t.filename ++ ".completing")) := by
  unfold move_to_done
  rw [hsd]
  simp only [Bool.false_eq_true, if_false]
  rw [show noFaults.lockFail "task_done" = false from rfl]
  simp only [Bool.false_eq_true, if_false]
  rw [safe_rename_noFaults_some DirTag.inProgress ("." ++ t.filename ++ ".completing") h]
  rw [atomic_write_noFaults]
  dsimp only
  have hget2 : fsGet ((stSet
      (stDel
        (stSet (stDel s t.pathDir t.filename) DirTag.inProgress
          ("." ++ t.filename ++ ".completing") r0)
        DirTag.done ((t.filename ++ ".tmp") ++ ".tmp"))
      DirTag.done (t.filename ++ ".tmp")
      { mtime := c.now,
        content := .ok (mark_completed c.now success results error t.data) }).dir
        DirTag.done) (t.filename ++ ".tmp") =
      some { mtime := c.now,
             content := .ok (mark_completed c.now success results error t.data) } := by
    rw [dir_stSet, if_pos rfl, fsGet_fsSet, if_pos rfl]
  rw [safe_rename_noFaults_some DirTag.done t.filename hget2, stDel_stSet_self]
  rfl

/-- Net effect of one recovery iteration under the fault-free oracle when
the entry decodes and is classified stale: the entry moves behind the
`.recovering` marker, the updated record is published into `todo/`, the
marker is dropped and the count increments. -/
theorem recover_one_noFaults_stale {c : Ctx} {active : List (Option String)}
    {x : String} {s : SchedState} {r : FileRec} {d : Rec} (acc1 : Int)
    (hget : fsGet s.in_progress x = some r) (hc : r.content = .ok d)
    (hst : is_stale_record active c.procEnv c.now c.window d = true) :
    recover_one noFaults c active (acc1, s) x =
      (acc1 + 1,
        stDel
          (stSet
            (stDel
              (stDel
                (stSet (stDel s DirTag.inProgress x) DirTag.inProgress
                  ("." ++ x ++ ".recovering") r)
                DirTag.todo ((x ++ ".tmp") ++ ".tmp"))
              DirTag.todo (x ++ ".tmp"))
            DirTag.todo x
            { mtime := c.now, content := .ok (recoveredRec c d) })
          DirTag.inProgress ("." ++ x ++ ".recovering")) := by
  unfold recover_one
  rw [show noFaults.readFail .inProgress x = false from rfl]
  simp only [Bool.false_eq_true, if_false]
  rw [hget]
  dsimp only
  rw [hc]
  dsimp only
  rw [hst]
  simp only [if_true]
  have hsrc : fsGet (s.dir DirTag.inProgress) x = some r := hget
  rw [safe_rename_noFaults_some DirTag.inProgress ("." ++ x ++ ".recovering") hsrc]
  rw [atomic_write_noFaults]
  dsimp only
  have hget2 : fsGet ((stSet
      (stDel
        (stSet (stDel s DirTag.inProgress x) DirTag.inProgress
          ("." ++ x ++ ".recovering") r)
        DirTag.todo ((x ++ ".tmp") ++ ".tmp"))
      DirTag.todo (x ++ ".tmp")
      { mtime := c.now, content := .ok (recoveredRec c d) }).dir DirTag.todo)
      (x ++ ".tmp") =
      some { mtime := c.now, content := .ok (recoveredRec c d) } := by
    rw [dir_stSet, if_pos rfl, fsGet_fsSet, if_pos rfl]
  rw [safe_rename_noFaults_some DirTag.todo x hget2, stDel_stSet_self]
  rfl

/-- A recovery iteration on an entry that is absent, undecodable, or not
stale leaves the accumulator unchanged (fault-free oracle). -/
theorem recover_one_noFaults_skip {c : Ctx} {active : List (Option String)}
    {x : String} {s : SchedState} (acc1 : Int)
    (h : ∀ r, fsGet s.in_progress x = some r →
      ∀ d, r.content = .ok d →
        is_stale_record active c.procEnv c.now c.window d = false) :
    recover_one noFaults c active (acc1, s) x = (acc1, s) := by
  unfold recover_one
  rw [show noFaults.readFail .inProgress x = false from rfl]
  simp only [Bool.false_eq_true, if_false]
  cases hget : fsGet s.in_progress x with
  | none => rfl
  | some r =>
    dsimp only
    cases hc : r.content with
    | bad => rfl
    | ok d =>
      dsimp only
      rw [h r hget d hc]
      rfl

/-! ## Preservation of the exclusivity invariant (I1) -/

theorem isVisibleName_dotpre (x y : String) : isVisibleName (("." ++ x) ++ y) = false := by
  rw [String.append_assoc]
  exact isVisibleName_dot (x ++ y)

/-- The whole-directory move pattern of one recovery iteration preserves
exclusivity: the in-progress entry is hidden, and the published todo entry
is the only remaining visible occurrence. -/
theorem exclusive_recover_state {s : SchedState} (hInv : ExclusiveInv s)
    (x : String) (r rec1 : FileRec) (hsrc : fsGet (s.dir DirTag.inProgress) x = some r) :
    ExclusiveInv (stDel (stSet (stDel (stDel (stSet (stDel s DirTag.inProgress x)
        DirTag.inProgress ("." ++ x ++ ".recovering") r)
      DirTag.todo ((x ++ ".tmp") ++ ".tmp")) DirTag.todo (x ++ ".tmp")) DirTag.todo x rec1)
      DirTag.inProgress ("." ++ x ++ ".recovering")) := by
  have hhid : isVisibleName ("." ++ x ++ ".recovering") = false :=
    isVisibleName_dotpre x ".recovering"
  intro m
  have hc := hInv m
  unfold visCount at hc ⊢
  simp only [visIn_stDel_dir, visIn_stSet_dir]
  simp
  by_cases hm : m = x
  · subst hm
    by_cases hv : isVisibleName m = true
    · have hiP : visIn (s.dir DirTag.inProgress) m = true := by
        unfold visIn
        rw [hsrc, hv]
        rfl
      simp only [hv, hiP] at hc ⊢
      simp [hhid] at hc ⊢
      first
      | (split_ifs at hc ⊢ <;> (first | omega | tauto | simp_all))
      | (split_ifs <;> (first | omega | tauto | simp_all))
      | omega
      | tauto
      | simp_all
    · have hovis : isVisibleName m = false := by simpa using hv
      have hz : ∀ u : DirTag, visIn (s.dir u) m = false := fun u => visIn_hidden hovis _
      simp [hovis, hz, hhid]
  · simp only [hm]
    split_ifs at hc ⊢ <;> simp_all

set_option maxHeartbeats 2000000 in
/-- The move pattern of a successful `move_to_in_progress` preserves
exclusivity, from any non-status source directory. -/
theorem exclusive_moveIP_state {s : SchedState} (hInv : ExclusiveInv s)
    (A : DirTag) (hA : A ≠ DirTag.status) (f : String) (r0 rec1 : FileRec)
    (hsrc : fsGet (s.dir A) f = some r0) :
    ExclusiveInv (stDel (stSet (stDel (stDel (stSet (stDel s A f) DirTag.todo
        ("." ++ f ++ ".reserved") r0) DirTag.inProgress ((f ++ ".tmp") ++ ".tmp"))
      DirTag.inProgress (f ++ ".tmp")) DirTag.inProgress f rec1)
      DirTag.todo ("." ++ f ++ ".reserved")) := by
  have hhid : isVisibleName ("." ++ f ++ ".reserved") = false :=
    isVisibleName_dotpre f ".reserved"
  have hAvisI : isVisibleName f = true → visIn (s.dir A) f = true := by
    intro hv
    unfold visIn
    rw [hsrc, hv]
    rfl
  intro m
  have hc := hInv m
  unfold visCount at hc ⊢
  simp only [visIn_stDel_dir, visIn_stSet_dir]
  cases A
  case status => exact absurd rfl hA
  all_goals
    simp
    by_cases hm : m = f
    · subst hm
      by_cases hv : isVisibleName m = true
      · have hAvis := hAvisI hv
        simp only [hv, hAvis] at hc ⊢
        simp [hhid] at hc ⊢
        first
        | (split_ifs at hc ⊢ <;> (first | omega | tauto | simp_all))
        | (split_ifs <;> (first | omega | tauto | simp_all))
        | omega
        | tauto
        | simp_all
      · have hovis : isVisibleName m = false := by simpa using hv
        have hz : ∀ u : DirTag, visIn (s.dir u) m = false := fun u => visIn_hidden hovis _
        simp [hovis, hz, hhid]
    · simp only [hm]
      split_ifs at hc ⊢ <;> simp_all

set_option maxHeartbeats 2000000 in
/-- The move pattern of `move_to_done` preserves exclusivity when the
source entry exists in a non-status directory. -/
theorem exclusive_moveDone_state {s : SchedState} (hInv : ExclusiveInv s)
    (A : DirTag) (hA : A ≠ DirTag.status) (f : String) (r0 rec1 : FileRec)
    (hsrc : fsGet (s.dir A) f = some r0) :
    ExclusiveInv (stDel (stSet (stDel (stDel (stSet (stDel s A f) DirTag.inProgress
        ("." ++ f ++ ".completing") r0) DirTag.done ((f ++ ".tmp") ++ ".tmp"))
      DirTag.done (f ++ ".tmp")) DirTag.done f rec1)
      DirTag.inProgress ("." ++ f ++ ".completing")) := by
  have hhid : isVisibleName ("." ++ f ++ ".completing") = false :=
    isVisibleName_dotpre f ".completing"
  have hAvisI : isVisibleName f = true → visIn (s.dir A) f = true := by
    intro hv
    unfold visIn
    rw [hsrc, hv]
    rfl
  intro m
  have hc := hInv m
  unfold visCount at hc ⊢
  simp only [visIn_stDel_dir, visIn_stSet_dir]
  cases A
  case status => exact absurd rfl hA
  all_goals
    simp
    by_cases hm : m = f
    · subst hm
      by_cases hv : isVisibleName m = true
      · have hAvis := hAvisI hv
        simp only [hv, hAvis] at hc ⊢
        simp [hhid] at hc ⊢
        first
        | (split_ifs at hc ⊢ <;> (first | omega | tauto | simp_all))
        | (split_ifs <;> (first | omega | tauto | simp_all))
        | omega
        | tauto
        | simp_all
      · have hovis : isVisibleName m = false := by simpa using hv
        have hz : ∀ u : DirTag, visIn (s.dir u) m = false := fun u => visIn_hidden hovis _
        simp [hovis, hz, hhid]
    · simp only [hm]
      split_ifs at hc ⊢ <;> simp_all

/-- Orphan cleanup removes only dot-prefixed transients, so visibility is
untouched. -/
theorem exclusive_cleanup (now : Int) (t : DirTag) (age : Int) {s : SchedState}
    (h : ExclusiveInv s) : ExclusiveInv (cleanup_temp_files now t age s) := by
  intro n
  have key : ∀ u : DirTag,
      visIn ((cleanup_temp_files now t age s).dir u) n = visIn (s.dir u) n := by
    intro u
    unfold cleanup_temp_files
    rw [dir_setDir]
    by_cases hu : u = t
    · rw [if_pos hu]
      by_cases hv : isVisibleName n = true
      · unfold visIn
        rw [fsGet_filter_of_keep _ _ _ ?keep, hu]
        case keep =>
          intro r
          have hnd := not_startsWith_dot_of_visible hv
          simp [hnd]
      · rw [visIn_hidden (by simpa using hv), visIn_hidden (by simpa using hv)]
    · rw [if_neg hu]
  unfold visCount
  rw [key, key, key, key]
  exact h n

/-- One recovery iteration preserves exclusivity. -/
theorem exclusive_recover_one (c : Ctx) (active : List (Option String)) (x : String)
    {acc : Int × SchedState} (h : ExclusiveInv acc.2) :
    ExclusiveInv (recover_one noFaults c active acc x).2 := by
  rcases acc with ⟨k, s⟩
  by_cases hstale : ∃ r, fsGet s.in_progress x = some r ∧
      ∃ d, r.content = .ok d ∧ is_stale_record active c.procEnv c.now c.window d = true
  · obtain ⟨r, hget, d, hc2, hst⟩ := hstale
    rw [recover_one_noFaults_stale k hget hc2 hst]
    exact exclusive_recover_state h x r _ hget
  · have hskip : ∀ r, fsGet s.in_progress x = some r → ∀ d, r.content = .ok d →
        is_stale_record active c.procEnv c.now c.window d = false := by
      intro r hget d hc2
      by_contra hne
      exact hstale ⟨r, hget, d, hc2, by simpa using hne⟩
    rw [recover_one_noFaults_skip k hskip]
    exact h

/-- The recovery scan preserves exclusivity. -/
theorem exclusive_recover_fold (c : Ctx) (active : List (Option String))
    (files : List String) {acc : Int × SchedState} (h : ExclusiveInv acc.2) :
    ExclusiveInv (files.foldl (recover_one noFaults c active) acc).2 := by
  induction files generalizing acc with
  | nil => exact h
  | cons x rest ih => exact ih (exclusive_recover_one c active x h)

/-- `recover_stale_tasks` preserves exclusivity (fault-free oracle). -/
theorem exclusive_recover (c : Ctx) {s : SchedState} (h : ExclusiveInv s) :
    ExclusiveInv (recover_stale_tasks noFaults c s).2 := by
  unfold recover_stale_tasks
  rw [show noFaults.lockFail "stale_check" = false from rfl]
  simp only [Bool.false_eq_true, if_false]
  exact exclusive_recover_fold _ _ _ h

/-- `get_next_task` preserves exclusivity: its state effect is the orphan
cleanup followed by the optional recovery pass. -/
theorem exclusive_get_next (c : Ctx) (cs : Bool) {s : SchedState} (h : ExclusiveInv s) :
    ExclusiveInv (get_next_task noFaults c cs s).2 := by
  rw [get_next_task_state]
  split_ifs
  · exact h
  · exact exclusive_recover _ (exclusive_cleanup _ _ _ h)
  · exact exclusive_cleanup _ _ _ h

/-- `create_task` preserves exclusivity when the created filename does not
collide with a visible entry of another directory. -/
theorem exclusive_create (c : Ctx) (payload : Rec) (task_id : Option String)
    (rand : String) {s : SchedState} (h : ExclusiveInv s)
    (hfr1 : visIn (s.dir DirTag.inProgress) (createName c task_id rand) = false)
    (hfr2 : visIn (s.dir DirTag.done) (createName c task_id rand) = false)
    (hfr3 : visIn (s.dir DirTag.corrupted) (createName c task_id rand) = false) :
    ExclusiveInv (create_task noFaults c payload task_id rand s).2 := by
  rw [create_task_noFaults]
  intro m
  have hc := h m
  unfold visCount at hc ⊢
  simp only [visIn_stSet_dir, visIn_stDel_dir]
  simp
  by_cases hm : m = createName c task_id rand
  · subst hm
    simp only [hfr1, hfr2, hfr3] at hc ⊢
    simp at hc ⊢
    split_ifs <;> omega
  · simp only [hm]
    split_ifs at hc ⊢ <;> simp_all

/-- `move_to_in_progress` preserves exclusivity from any non-status task
path: it re-checks existence, and a successful transfer is the move
pattern. -/
theorem exclusive_move_to_in_progress (c : Ctx) (t : TaskView)
    (hA : t.pathDir ≠ .status) {s : SchedState} (h : ExclusiveInv s) :
    ExclusiveInv (move_to_in_progress noFaults c t s).2 := by
  by_cases hs : c.shutdown = true
  · unfold move_to_in_progress
    rw [hs]
    simp only [if_true]
    exact h
  · have hs' : c.shutdown = false := by simpa using hs
    cases hg : fsGet (s.dir t.pathDir) t.filename with
    | none =>
      unfold move_to_in_progress
      rw [hs']
      simp only [Bool.false_eq_true, if_false]
      rw [show noFaults.lockFail "task_move" = false from rfl]
      simp only [Bool.false_eq_true, if_false]
      rw [hg]
      exact h
    | some r0 =>
      rw [move_to_in_progress_noFaults hs' t hg]
      exact exclusive_moveIP_state h t.pathDir hA t.filename r0 _ hg

/-- `move_to_done` preserves exclusivity from a non-status task path whose
source file still exists (the operation itself does not re-check
existence). -/
theorem exclusive_move_to_done (c : Ctx) (t : TaskView) (success : Bool)
    (results : Option Int) (error : Option String) (hA : t.pathDir ≠ .status)
    {s : SchedState} {r0 : FileRec}
    (hg : fsGet (s.dir t.pathDir) t.filename = some r0) (h : ExclusiveInv s) :
    ExclusiveInv (move_to_done noFaults c t success results error s).2 := by
  by_cases hs : c.shutdown = true
  · unfold move_to_done
    rw [hs]
    simp only [if_true]
    exact h
  · have hs' : c.shutdown = false := by simpa using hs
    rw [move_to_done_noFaults hs' t success results error hg]
    exact exclusive_moveDone_state h t.pathDir hA t.filename r0 _ hg

/-- The per-invocation side conditions under which the operations preserve
exclusivity: `create_task` gets a filename that does not collide with a
visible entry of another directory; the task handle of a move points into
one of the four primary directories; and `move_to_done`'s source file
still exists (its code has no existence re-check). -/
def GoodOp (c : Ctx) (op : Op) (s : SchedState) : Prop :=
  match op with
  | .create _ task_id rand =>
      visIn (s.dir DirTag.inProgress) (createName c task_id rand) = false ∧
      visIn (s.dir DirTag.done) (createName c task_id rand) = false ∧
      visIn (s.dir DirTag.corrupted) (createName c task_id rand) = false
  | .moveInProgress t => t.pathDir ≠ .status
  | .moveDone t _ _ _ => t.pathDir ≠ .status ∧ (fsGet (s.dir t.pathDir) t.filename).isSome
  | _ => True

/-- Exclusivity preservation assembled over the six public operations. -/
theorem exclusive_runOp (c : Ctx) (op : Op) (s : SchedState)
    (hInv : ExclusiveInv s) (hgood : GoodOp c op s) :
    ExclusiveInv (runOp noFaults c op s) := by
  cases op with
  | create payload task_id rand =>
    obtain ⟨h1, h2, h3⟩ := hgood
    exact exclusive_create c payload task_id rand hInv h1 h2 h3
  | getNext cs => exact exclusive_get_next c cs hInv
  | moveInProgress t => exact exclusive_move_to_in_progress c t hgood hInv
  | moveDone t success results error =>
    obtain ⟨hA, hex⟩ := hgood
    obtain ⟨r0, hr0⟩ := Option.isSome_iff_exists.mp hex
    exact exclusive_move_to_done c t success results error hA hr0 hInv
  | reportProgress t pct msg =>
    show ExclusiveInv (report_progress noFaults c t pct msg s).2
    rw [report_progress_state]
    exact hInv
  | recover => exact exclusive_recover c hInv

/-! ## Retries bookkeeping (I3) -/

theorem persisted_none_of_hidden {n : String} (h : isVisibleName n = false)
    (s : SchedState) : persistedRetries s n = none := by
  unfold persistedRetries visRecord
  rw [h]
  rfl

theorem vis_ne_hidden {n h : String} (hv : isVisibleName n = true)
    (hh : isVisibleName h = false) : n ≠ h := by
  intro he
  rw [he, hh] at hv
  cases hv

theorem fsGet_none_of_notVis {d : Dir} {n : String} (hv : isVisibleName n = true)
    (h : visIn d n = false) : fsGet d n = none := by
  unfold visIn at h
  rw [hv] at h
  cases hx : fsGet d n with
  | none => rfl
  | some r =>
    rw [hx] at h
    simp at h

/-- The snapshot-freshness condition: the task handle's data is exactly
the record currently decoded at its path. -/
def SnapOk (s : SchedState) (t : TaskView) : Prop :=
  ∃ r, fsGet (s.dir t.pathDir) t.filename = some r ∧ r.content = .ok t.data

/-- The per-invocation side conditions for retries monotonicity: the
`GoodOp` conditions, plus a fully fresh create filename (todo included,
since creating over an existing todo entry resets `retries` to 0) and
snapshot freshness for the two moves (a stale handle rewrites the old
record over the current one). -/
def GoodOpR (c : Ctx) (op : Op) (s : SchedState) : Prop :=
  match op with
  | .create _ task_id rand =>
      visIn (s.dir DirTag.todo) (createName c task_id rand) = false ∧
      visIn (s.dir DirTag.inProgress) (createName c task_id rand) = false ∧
      visIn (s.dir DirTag.done) (createName c task_id rand) = false ∧
      visIn (s.dir DirTag.corrupted) (createName c task_id rand) = false
  | .moveInProgress t => t.pathDir ≠ .status ∧ SnapOk s t
  | .moveDone t _ _ _ => t.pathDir ≠ .status ∧ SnapOk s t
  | _ => True

theorem goodR_imp_good (c : Ctx) (op : Op) (s : SchedState) (h : GoodOpR c op s) :
    GoodOp c op s := by
  cases op with
  | create payload task_id rand => exact ⟨h.2.1, h.2.2.1, h.2.2.2⟩
  | moveInProgress t => exact h.1
  | moveDone t success results error =>
    obtain ⟨hA, r, hr, -⟩ := h
    exact ⟨hA, by rw [hr]; rfl⟩
  | getNext cs => trivial
  | reportProgress t pct msg => trivial
  | recover => trivial

/-- Lookup-table view of `persistedRetries`: the first hit in directory
order, then the decoded field. -/
def prOf (a b cD dD : Option FileRec) : Option Int :=
  match (match a with
         | some r => some r
         | none =>
           match b with
           | some r => some r
           | none =>
             match cD with
             | some r => some r
             | none => dD) with
  | some r =>
    match r.content with
    | .ok d => d.retries
    | .bad => none
  | none => none

theorem persisted_eq_prOf {n : String} (s : SchedState) (hv : isVisibleName n = true) :
    persistedRetries s n = prOf (fsGet (s.dir DirTag.todo) n)
      (fsGet (s.dir DirTag.inProgress) n) (fsGet (s.dir DirTag.done) n)
      (fsGet (s.dir DirTag.corrupted) n) := by
  unfold persistedRetries visRecord prOf
  rw [hv]
  rfl

theorem persisted_congr {s1 s2 : SchedState} {n : String}
    (h : ∀ u : DirTag, fsGet (s1.dir u) n = fsGet (s2.dir u) n) :
    persistedRetries s1 n = persistedRetries s2 n := by
  by_cases hv : isVisibleName n = true
  · rw [persisted_eq_prOf s1 hv, persisted_eq_prOf s2 hv,
      h DirTag.todo, h DirTag.inProgress, h DirTag.done, h DirTag.corrupted]
  · rw [persisted_none_of_hidden (by simpa using hv),
      persisted_none_of_hidden (by simpa using hv)]

/-- Among the four primary directories, exclusivity makes every directory
other than the one visibly holding `n` lookup-free at `n`. -/
theorem others_fsGet_none {s : SchedState} {n : String} (hInv : ExclusiveInv s)
    (hv : isVisibleName n = true) {A : DirTag} (hAs : A ≠ DirTag.status)
    (hA : visIn (s.dir A) n = true) :
    ∀ u : DirTag, u ≠ DirTag.status → u ≠ A → fsGet (s.dir u) n = none := by
  intro u hus huA
  have hc := hInv n
  unfold visCount at hc
  refine fsGet_none_of_notVis hv ?_
  by_contra hcon
  have hu : visIn (s.dir u) n = true := by simpa using hcon
  cases A <;> cases u <;>
    first
    | exact absurd rfl huA
    | exact absurd rfl hus
    | exact absurd rfl hAs
    | (rw [hA] at hc; rw [hu] at hc; simp at hc; omega)
    | (rw [hA, hu] at hc; simp at hc)
    | (rw [hA] at hc; simp_all)

/-- `create_task` with a fully fresh filename leaves every persisted
`retries` value unchanged. -/
theorem retries_create (c : Ctx) (payload : Rec) (task_id : Option String) (rand : String)
    {s : SchedState} {n : String} {r : Int}
    (hf1 : visIn (s.dir DirTag.todo) (createName c task_id rand) = false)
    (hf2 : visIn (s.dir DirTag.inProgress) (createName c task_id rand) = false)
    (hf3 : visIn (s.dir DirTag.done) (createName c task_id rand) = false)
    (hf4 : visIn (s.dir DirTag.corrupted) (createName c task_id rand) = false)
    (hr : persistedRetries s n = some r) :
    persistedRetries (create_task noFaults c payload task_id rand s).2 n = some r := by
  have hv : isVisibleName n = true := by
    by_contra hcon
    rw [persisted_none_of_hidden (by simpa using hcon)] at hr
    cases hr
  have hnt1 : n ≠ createName c task_id rand ++ ".tmp" :=
    vis_ne_hidden hv (isVisibleName_tmp _)
  have hnt2 : n ≠ (createName c task_id rand ++ ".tmp") ++ ".tmp" :=
    vis_ne_hidden hv (isVisibleName_tmp _)
  have hntid : n ≠ createName c task_id rand := by
    intro he
    rw [persisted_eq_prOf s hv] at hr
    rw [he] at hr
    rw [fsGet_none_of_notVis (he ▸ hv) hf1, fsGet_none_of_notVis (he ▸ hv) hf2,
      fsGet_none_of_notVis (he ▸ hv) hf3, fsGet_none_of_notVis (he ▸ hv) hf4] at hr
    cases hr
  rw [create_task_noFaults]
  rw [persisted_congr ?gets]
  · exact hr
  case gets =>
    intro u
    rw [dir_stSet]
    by_cases hu : u = DirTag.todo
    · rw [if_pos hu, fsGet_fsSet, if_neg hntid, dir_stDel, if_pos rfl, fsGet_fsDel,
        if_neg hnt1, dir_stDel, if_pos rfl, fsGet_fsDel, if_neg hnt2, hu]
    · rw [if_neg hu, dir_stDel, if_neg hu, dir_stDel, if_neg hu]

/-- `cleanup_temp_files` leaves every persisted `retries` value
unchanged. -/
theorem retries_cleanup (now : Int) (t : DirTag) (age : Int) (s : SchedState)
    (n : String) : persistedRetries (cleanup_temp_files now t age s) n =
      persistedRetries s n := by
  by_cases hv : isVisibleName n = true
  · refine persisted_congr ?_
    intro u
    unfold cleanup_temp_files
    rw [dir_setDir]
    by_cases hu : u = t
    · rw [if_pos hu, hu]
      refine fsGet_filter_of_keep _ _ _ ?_
      intro rr
      have hnd := not_startsWith_dot_of_visible hv
      simp [hnd]
    · rw [if_neg hu]
  · rw [persisted_none_of_hidden (by simpa using hv),
      persisted_none_of_hidden (by simpa using hv)]

set_option maxRecDepth 8000 in
/-- Pointwise lookup of a visible name after the whole-directory move
pattern: the destination holds the published record, the source entry is
gone, everything else is untouched. -/
theorem move_fsGet {s : SchedState} (A B H : DirTag) (f hid : String) (r0 rec1 : FileRec)
    {n : String} (hv : isVisibleName n = true) (hhid : isVisibleName hid = false) :
    ∀ u : DirTag,
      fsGet ((stDel (stSet (stDel (stDel (stSet (stDel s A f) H hid r0)
          B ((f ++ ".tmp") ++ ".tmp")) B (f ++ ".tmp")) B f rec1) H hid).dir u) n =
        if u = B ∧ n = f then some rec1
        else if u = A ∧ n = f then none
        else fsGet (s.dir u) n := by
  intro u
  have hn_hid : n ≠ hid := vis_ne_hidden hv hhid
  have hn_t1 : n ≠ f ++ ".tmp" := vis_ne_hidden hv (isVisibleName_tmp f)
  have hn_t2 : n ≠ (f ++ ".tmp") ++ ".tmp" := vis_ne_hidden hv (isVisibleName_tmp _)
  simp only [dir_stDel, dir_stSet, fsGet_fsDel, fsGet_fsSet, hn_hid, hn_t1, hn_t2,
    if_false]
  by_cases hnf : n = f
  · subst hnf
    by_cases h1 : u = B <;> by_cases h2 : u = H <;> by_cases h3 : u = A <;>
      simp_all [fsGet_fsDel, fsGet_fsSet]
  · by_cases h1 : u = B <;> by_cases h2 : u = H <;> by_cases h3 : u = A <;>
      simp_all [fsGet_fsDel, fsGet_fsSet]

/-- The record `move_to_in_progress` publishes keeps the `retries` field. -/
theorem retries_mark_started (now : Int) (pid : Int) (host sessionId : String) (d : Rec) :
    (mark_started now pid host sessionId d).retries = d.retries := rfl

/-- The record `move_to_done` publishes keeps the `retries` field. -/
theorem retries_mark_completed (now : Int) (success : Bool) (results : Option Int)
    (error : Option String) (d : Rec) :
    (mark_completed now success results error d).retries = d.retries := rfl

/-- A fresh-snapshot `move_to_in_progress` leaves every persisted
`retries` value unchanged. -/
theorem retries_moveIP (c : Ctx) (t : TaskView) (hA : t.pathDir ≠ .status)
    {s : SchedState} (hInv : ExclusiveInv s) (hsnap : SnapOk s t)
    {n : String} {r : Int} (hr : persistedRetries s n = some r) :
    persistedRetries (move_to_in_progress noFaults c t s).2 n = some r := by
  obtain ⟨r0, hget, hcont⟩ := hsnap
  by_cases hs : c.shutdown = true
  · unfold move_to_in_progress
    rw [hs]
    simp only [if_true]
    exact hr
  · have hs' : c.shutdown = false := by simpa using hs
    rw [move_to_in_progress_noFaults hs' t hget]
    have hv : isVisibleName n = true := by
      by_contra hcon
      rw [persisted_none_of_hidden (by simpa using hcon)] at hr
      cases hr
    have hhid : isVisibleName ("." ++ t.filename ++ ".reserved") = false :=
      isVisibleName_dotpre t.filename ".reserved"
    have hm := move_fsGet (s := s) t.pathDir DirTag.inProgress DirTag.todo t.filename
      ("." ++ t.filename ++ ".reserved") r0
      { mtime := c.now,
        content := .ok (mark_started c.now c.pid c.hostname c.sessionId t.data) }
      hv hhid
    by_cases hnf : n = t.filename
    · subst hnf
      have hAvis : visIn (s.dir t.pathDir) t.filename = true := by
        unfold visIn
        rw [hget, hv]
        rfl
      have hothers := others_fsGet_none hInv hv hA hAvis
      have hold : t.data.retries = some r := by
        rw [persisted_eq_prOf s hv] at hr
        cases hpd : t.pathDir with
        | status => exact absurd hpd hA
        | todo =>
          rw [hpd] at hget
          rw [hget] at hr
          simpa [prOf, hcont] using hr
        | inProgress =>
          rw [hpd] at hget
          rw [hothers DirTag.todo (by simp) (by rw [hpd]; simp), hget] at hr
          simpa [prOf, hcont] using hr
        | done =>
          rw [hpd] at hget
          rw [hothers DirTag.todo (by simp) (by rw [hpd]; simp),
            hothers DirTag.inProgress (by simp) (by rw [hpd]; simp), hget] at hr
          simpa [prOf, hcont] using hr
        | corrupted =>
          rw [hpd] at hget
          rw [hothers DirTag.todo (by simp) (by rw [hpd]; simp),
            hothers DirTag.inProgress (by simp) (by rw [hpd]; simp),
            hothers DirTag.done (by simp) (by rw [hpd]; simp), hget] at hr
          simpa [prOf, hcont] using hr
      rw [persisted_eq_prOf _ hv, hm DirTag.todo, hm DirTag.inProgress, hm DirTag.done,
        hm DirTag.corrupted]
      by_cases hpd : t.pathDir = DirTag.todo
      · simp [prOf, hpd, hold, mark_started]
      · have hnone : fsGet (s.dir DirTag.todo) t.filename = none :=
          hothers DirTag.todo (by simp) (fun he => hpd he.symm)
        simp [prOf, hnone, hold, mark_started]
    · exact (persisted_congr fun u => by rw [hm u]; simp [hnf]).trans hr

/-- A fresh-snapshot `move_to_done` leaves every persisted `retries`
value unchanged. -/
theorem retries_moveDone (c : Ctx) (t : TaskView) (success : Bool) (results : Option Int)
    (error : Option String) (hA : t.pathDir ≠ .status)
    {s : SchedState} (hInv : ExclusiveInv s) (hsnap : SnapOk s t)
    {n : String} {r : Int} (hr : persistedRetries s n = some r) :
    persistedRetries (move_to_done noFaults c t success results error s).2 n = some r := by
  obtain ⟨r0, hget, hcont⟩ := hsnap
  by_cases hs : c.shutdown = true
  · unfold move_to_done
    rw [hs]
    simp only [if_true]
    exact hr
  · have hs' : c.shutdown = false := by simpa using hs
    rw [move_to_done_noFaults hs' t success results error hget]
    have hv : isVisibleName n = true := by
      by_contra hcon
      rw [persisted_none_of_hidden (by simpa using hcon)] at hr
      cases hr
    have hhid : isVisibleName ("." ++ t.filename ++ ".completing") = false :=
      isVisibleName_dotpre t.filename ".completing"
    have hm := move_fsGet (s := s) t.pathDir DirTag.done DirTag.inProgress t.filename
      ("." ++ t.filename ++ ".completing") r0
      { mtime := c.now,
        content := .ok (mark_completed c.now success results error t.data) }
      hv hhid
    by_cases hnf : n = t.filename
    · subst hnf
      have hAvis : visIn (s.dir t.pathDir) t.filename = true := by
        unfold visIn
        rw [hget, hv]
        rfl
      have hothers := others_fsGet_none hInv hv hA hAvis
      have hold : t.data.retries = some r := by
        rw [persisted_eq_prOf s hv] at hr
        cases hpd : t.pathDir with
        | status => exact absurd hpd hA
        | todo =>
          rw [hpd] at hget
          rw [hget] at hr
          simpa [prOf, hcont] using hr
        | inProgress =>
          rw [hpd] at hget
          rw [hothers DirTag.todo (by simp) (by rw [hpd]; simp), hget] at hr
          simpa [prOf, hcont] using hr
        | done =>
          rw [hpd] at hget
          rw [hothers DirTag.todo (by simp) (by rw [hpd]; simp),
            hothers DirTag.inProgress (by simp) (by rw [hpd]; simp), hget] at hr
          simpa [prOf, hcont] using hr
        | corrupted =>
          rw [hpd] at hget
          rw [hothers DirTag.todo (by simp) (by rw [hpd]; simp),
            hothers DirTag.inProgress (by simp) (by rw [hpd]; simp),
            hothers DirTag.done (by simp) (by rw [hpd]; simp), hget] at hr
          simpa [prOf, hcont] using hr
      rw [persisted_eq_prOf _ hv, hm DirTag.todo, hm DirTag.inProgress, hm DirTag.done,
        hm DirTag.corrupted]
      by_cases hp1 : t.pathDir = DirTag.todo
      · have hnone2 : fsGet (s.dir DirTag.inProgress) t.filename = none :=
          hothers DirTag.inProgress (by simp) (by rw [hp1]; simp)
        simp [prOf, hp1, hnone2, hold, mark_completed]
      · have hnone1 : fsGet (s.dir DirTag.todo) t.filename = none :=
          hothers DirTag.todo (by simp) (fun he => hp1 he.symm)
        by_cases hp2 : t.pathDir = DirTag.inProgress
        · simp [prOf, hnone1, hp2, hold, mark_completed]
        · have hnone2 : fsGet (s.dir DirTag.inProgress) t.filename = none :=
            hothers DirTag.inProgress (by simp) (fun he => hp2 he.symm)
          simp [prOf, hnone1, hnone2, hold, mark_completed]
    · exact (persisted_congr fun u => by rw [hm u]; simp [hnf]).trans hr

/-- One recovery iteration never decreases a persisted `retries` value:
the republished record carries exactly the old value plus one. -/
theorem retries_recover_one (c : Ctx) (active : List (Option String)) (x : String)
    {acc : Int × SchedState} (hInv : ExclusiveInv acc.2)
    {n : String} {r : Int} (hr : persistedRetries acc.2 n = some r) :
    ∃ q, persistedRetries (recover_one noFaults c active acc x).2 n = some q ∧ r ≤ q := by
  rcases acc with ⟨k, s⟩
  by_cases hstale : ∃ rr, fsGet s.in_progress x = some rr ∧
      ∃ d, rr.content = .ok d ∧ is_stale_record active c.procEnv c.now c.window d = true
  · obtain ⟨rr, hget, d, hc2, hst⟩ := hstale
    rw [recover_one_noFaults_stale k hget hc2 hst]
    have hv : isVisibleName n = true := by
      by_contra hcon
      rw [persisted_none_of_hidden (by simpa using hcon)] at hr
      cases hr
    have hhid : isVisibleName ("." ++ x ++ ".recovering") = false :=
      isVisibleName_dotpre x ".recovering"
    have hm := move_fsGet (s := s) DirTag.inProgress DirTag.todo DirTag.inProgress x
      ("." ++ x ++ ".recovering") rr
      { mtime := c.now, content := .ok (recoveredRec c d) } hv hhid
    by_cases hnx : n = x
    · subst hnx
      have hget' : fsGet (s.dir DirTag.inProgress) n = some rr := hget
      have hAvis : visIn (s.dir DirTag.inProgress) n = true := by
        unfold visIn
        rw [hget', hv]
        rfl
      have hothers := others_fsGet_none hInv hv (by simp) hAvis
      have hold : d.retries = some r := by
        rw [persisted_eq_prOf s hv] at hr
        rw [hothers DirTag.todo (by simp) (by simp), hget'] at hr
        simpa [prOf, hc2] using hr
      refine ⟨r + 1, ?_, by omega⟩
      rw [persisted_eq_prOf _ hv, hm DirTag.todo, hm DirTag.inProgress, hm DirTag.done,
        hm DirTag.corrupted]
      simp [prOf, recoveredRec, hold]
    · exact ⟨r, (persisted_congr fun u => by rw [hm u]; simp [hnx]).trans hr, le_refl r⟩
  · have hskip : ∀ rr, fsGet s.in_progress x = some rr → ∀ d, rr.content = .ok d →
        is_stale_record active c.procEnv c.now c.window d = false := by
      intro rr hget d hc2
      by_contra hne
      exact hstale ⟨rr, hget, d, hc2, by simpa using hne⟩
    rw [recover_one_noFaults_skip k hskip]
    exact ⟨r, hr, le_refl r⟩

/-- Retries monotonicity across the recovery scan. -/
theorem retries_recover_fold (c : Ctx) (active : List (Option String))
    (files : List String) {acc : Int × SchedState} (hInv : ExclusiveInv acc.2)
    {n : String} {r : Int} (hr : persistedRetries acc.2 n = some r) :
    ∃ q, persistedRetries (files.foldl (recover_one noFaults c active) acc).2 n = some q ∧
      r ≤ q := by
  revert hr
  revert hInv
  revert r
  induction files generalizing acc with
  | nil =>
    intro r hInv hr
    exact ⟨r, hr, le_refl r⟩
  | cons x rest ih =>
    intro r hInv hr
    obtain ⟨q, hq, hle⟩ := retries_recover_one c active x hInv hr
    have hInv' := exclusive_recover_one c active x hInv
    obtain ⟨q', hq', hle'⟩ := ih hInv' hq
    exact ⟨q', hq', le_trans hle hle'⟩

/-- Retries monotonicity across `recover_stale_tasks`. -/
theorem retries_recover (c : Ctx) {s : SchedState} (hInv : ExclusiveInv s)
    {n : String} {r : Int} (hr : persistedRetries s n = some r) :
    ∃ q, persistedRetries (recover_stale_tasks noFaults c s).2 n = some q ∧ r ≤ q := by
  unfold recover_stale_tasks
  rw [show noFaults.lockFail "stale_check" = false from rfl]
  simp only [Bool.false_eq_true, if_false]
  exact retries_recover_fold c _ _ hInv hr

/-- Retries monotonicity across `get_next_task`. -/
theorem retries_getNext (c : Ctx) (cs : Bool) {s : SchedState} (hInv : ExclusiveInv s)
    {n : String} {r : Int} (hr : persistedRetries s n = some r) :
    ∃ q, persistedRetries (get_next_task noFaults c cs s).2 n = some q ∧ r ≤ q := by
  rw [get_next_task_state]
  split_ifs
  · exact ⟨r, hr, le_refl r⟩
  · have h1 : persistedRetries (cleanup_temp_files c.now .todo 3600 s) n = some r := by
      rw [retries_cleanup]
      exact hr
    exact retries_recover c (exclusive_cleanup _ _ _ hInv) h1
  · exact ⟨r, (retries_cleanup _ _ _ _ _).trans hr, le_refl r⟩

/-- Retries monotonicity over one public operation under the side
conditions of `GoodOpR`. -/
theorem retries_runOp (c : Ctx) (op : Op) (s : SchedState) (hInv : ExclusiveInv s)
    (hgood : GoodOpR c op s) {n : String} {r : Int}
    (hr : persistedRetries s n = some r) :
    ∃ q, persistedRetries (runOp noFaults c op s) n = some q ∧ r ≤ q := by
  cases op with
  | create payload task_id rand =>
    obtain ⟨h1, h2, h3, h4⟩ := hgood
    exact ⟨r, retries_create c payload task_id rand h1 h2 h3 h4 hr, le_refl r⟩
  | getNext cs => exact retries_getNext c cs hInv hr
  | moveInProgress t =>
    exact ⟨r, retries_moveIP c t hgood.1 hInv hgood.2 hr, le_refl r⟩
  | moveDone t success results error =>
    exact ⟨r, retries_moveDone c t success results error hgood.1 hInv hgood.2 hr, le_refl r⟩
  | reportProgress t pct msg =>
    refine ⟨r, ?_, le_refl r⟩
    show persistedRetries (report_progress noFaults c t pct msg s).2 n = some r
    rw [report_progress_state]
    exact hr
  | recover => exact retries_recover c hInv hr

/-- A run in which every invocation satisfies its `GoodOpR` side
conditions at the state it executes in. -/
def GoodRun : SchedState → List (Ctx × Op) → Prop
  | _, [] => True
  | s, (c, op) :: rest => GoodOpR c op s ∧ GoodRun (runOp noFaults c op s) rest

/-- Retries monotonicity along any good run. -/
theorem retries_runSeq (l : List (Ctx × Op)) (s : SchedState) (hInv : ExclusiveInv s)
    (hgr : GoodRun s l) {n : String} {r : Int}
    (hr : persistedRetries s n = some r) :
    ∃ q, persistedRetries (runSeq noFaults l s) n = some q ∧ r ≤ q := by
  revert hr
  revert hgr
  revert hInv
  revert r
  induction l generalizing s with
  | nil =>
    intro r hInv hgr hr
    exact ⟨r, hr, le_refl r⟩
  | cons p rest ih =>
    intro r hInv hgr hr
    rcases p with ⟨c, op⟩
    obtain ⟨hg, hrest⟩ := hgr
    obtain ⟨q, hq, hle⟩ := retries_runOp c op s hInv hg hr
    have hInv' := exclusive_runOp c op s hInv (goodR_imp_good c op s hg)
    obtain ⟨q', hq', hle'⟩ := ih (runOp noFaults c op s) hInv' hrest hq
    exact ⟨q', hq', le_trans hle hle'⟩

/-! ## Characterization of the staleness classifier -/

/-- The classifier's `if`/`elif` chain as a disjunction of its four
conditions, the probe condition being exactly the code's
`pid and not is_process_running(pid, host)`. -/
theorem is_stale_record_iff (active : List (Option String)) (E : ProcEnv)
    (now window : Int) (d : Rec) :
    is_stale_record active E now window d = true ↔
      (truthyS d.session_id = true ∧ active.contains d.session_id = false) ∨
      (truthyI d.process_id = true ∧ is_process_running E d.process_id d.host = false) ∨
      (∃ tv, d.started_at = some tv ∧
        ((∃ t, tv.parse = some t ∧ now - t > window) ∨ tv.parse = none)) ∨
      d.started_at = none := by
  unfold is_stale_record
  by_cases h1 : (truthyS d.session_id && !(active.contains d.session_id)) = true
  · rcases Bool.and_eq_true_iff.mp h1 with ⟨ha, hb⟩
    simp only [h1, if_true, true_iff]
    exact Or.inl ⟨ha, by simpa using hb⟩
  · rw [if_neg h1]
    by_cases h2 : (truthyI d.process_id && !(is_process_running E d.process_id d.host)) = true
    · rcases Bool.and_eq_true_iff.mp h2 with ⟨ha, hb⟩
      simp only [h2, if_true, true_iff]
      exact Or.inr (Or.inl ⟨ha, by simpa using hb⟩)
    · rw [if_neg h2]
      have hno1 : ¬ (truthyS d.session_id = true ∧ active.contains d.session_id = false) := by
        intro hcon
        exact h1 (by rw [hcon.1, hcon.2]; rfl)
      have hno2 : ¬ (truthyI d.process_id = true ∧
          is_process_running E d.process_id d.host = false) := by
        intro hcon
        exact h2 (by rw [hcon.1, hcon.2]; rfl)
      cases hsa : d.started_at with
      | none =>
        constructor
        · intro _
          exact Or.inr (Or.inr (Or.inr rfl))
        · intro _
          rfl
      | some tv =>
        cases hp : tv.parse with
        | some t =>
          simp only [hp, decide_eq_true_eq]
          constructor
          · intro hgt
            exact Or.inr (Or.inr (Or.inl ⟨tv, rfl, Or.inl ⟨t, hp, hgt⟩⟩))
          · intro h
            rcases h with h | h | ⟨tv2, htv2, h⟩ | h
            · exact absurd h hno1
            · exact absurd h hno2
            · cases htv2
              rcases h with ⟨t2, ht2, hgt⟩ | hbad
              · rw [hp] at ht2
                cases ht2
                exact hgt
              · rw [hp] at hbad
                cases hbad
            · cases h
        | none =>
          simp only [hp, true_iff]
          exact Or.inr (Or.inr (Or.inl ⟨tv, rfl, Or.inr hp⟩))

/-! ## Claim fixtures -/

/-- Probe environment of a host named `local` where every pid exists. -/
def remoteEnv : ProcEnv :=
  { localHost := "local", procExists := fun _ => true, kill0 := fun _ => .ok }

/-- An in-progress record owned by an active session on a remote host,
claimed recently. -/
def remoteTask : Rec :=
  { session_id := some "S", process_id := some 42, host := some "remote",
    started_at := some (.ts 100) }

/-- Probe environment where `/proc` shows nothing and the zero-signal
send is denied. -/
def permEnv : ProcEnv :=
  { localHost := "h", procExists := fun _ => false, kill0 := fun _ => .permissionDenied }

/-- A fresh heartbeat file whose record lacks `session_id`. -/
def hbNoSession : Dir :=
  [("a.heartbeat", { mtime := 100, content := .ok { last_beat := some (.ts 100) } })]

/-! ## C2 -/

/-- C2, counterexample: an in-progress entry whose session is in the
active set, whose host is remote, and whose `started_at` is recent and
well-formed is nonetheless classified stale, because the code's second
condition is `pid and not is_process_running(pid, host)` and the probe
returns `False` for any remote host. The claim says such an entry is
never classified stale. -/
theorem C2_counterexample :
    is_stale_record [some "S"] remoteEnv 110 900 remoteTask = true ∧
    remoteTask.session_id = some "S" ∧
    ([some "S"] : List (Option String)).contains remoteTask.session_id = true ∧
    remoteTask.host = some "remote" ∧
    remoteEnv.localHost = "local" ∧
    remoteTask.started_at = some (.ts 100) ∧
    (110 : Int) - 100 ≤ 900 := by
  refine ⟨by decide, rfl, by decide, rfl, rfl, rfl, by decide⟩

/-- C2 (amended): `recover_stale_tasks` classifies a decodable visible
in-progress entry as stale iff (1) its `session_id` is truthy and not in
the active set, or (2) its `process_id` is truthy and
`is_process_running(pid, host)` returns `False` — which it does for every
remote host, so a remote entry with a pid is stale regardless of its
session —, or (3) its `started_at` parses and `now − started_at` exceeds
the window, or (4) its `started_at` is absent or malformed. -/
theorem C2_staleness (active : List (Option String)) (E : ProcEnv)
    (now window : Int) (d : Rec) :
    is_stale_record active E now window d = true ↔
      (truthyS d.session_id = true ∧ active.contains d.session_id = false) ∨
      (truthyI d.process_id = true ∧ is_process_running E d.process_id d.host = false) ∨
      (∃ tv, d.started_at = some tv ∧
        ((∃ t, tv.parse = some t ∧ now - t > window) ∨ tv.parse = none)) ∨
      d.started_at = none :=
  is_stale_record_iff active E now window d

/-! ## C3 -/

/-- C3, counterexample: with no hostname argument, a positive pid, no
`/proc` entry and a permission-denied zero-signal send, the probe returns
`False` — the `except` clause of `is_process_running` catches
`PermissionError` and returns `False` — where the claim requires `True`. -/
theorem C3_counterexample :
    is_process_running permEnv (some 5) none = false ∧
    permEnv.procExists 5 = false ∧
    permEnv.kill0 5 = .permissionDenied := by
  refine ⟨by decide, rfl, rfl⟩

/-- C3 (amended): the probe returns `False` for an unconvertible pid and
for a non-positive pid; and when the hostname is absent or local, the
`/proc` check fails and the zero-signal send raises `PermissionError`,
it also returns `False` (permission-denied is treated as not alive). -/
theorem C3_probe (E : ProcEnv) (pid : Option Int) (hostname : Option String) :
    (pid = none → is_process_running E pid hostname = false) ∧
    (∀ p, pid = some p → p ≤ 0 → is_process_running E pid hostname = false) ∧
    (∀ p, pid = some p → E.procExists p = false → E.kill0 p = .permissionDenied →
      is_process_running E pid hostname = false) := by
  refine ⟨?_, ?_, ?_⟩
  · intro hp
    subst hp
    unfold is_process_running
    by_cases hh : (truthyS hostname && !(hostname == some E.localHost)) = true
    · rw [if_pos hh]
    · rw [if_neg hh]
  · intro p hp hle
    subst hp
    unfold is_process_running
    by_cases hh : (truthyS hostname && !(hostname == some E.localHost)) = true
    · rw [if_pos hh]
    · rw [if_neg hh]
      dsimp only
      rw [if_pos hle]
  · intro p hp hpe hk
    subst hp
    unfold is_process_running
    by_cases hh : (truthyS hostname && !(hostname == some E.localHost)) = true
    · rw [if_pos hh]
    · rw [if_neg hh]
      dsimp only
      by_cases hle : p ≤ 0
      · rw [if_pos hle]
      · rw [if_neg hle, hpe]
        simp only [Bool.false_eq_true, if_false]
        rw [hk]

/-- C3, witness: the amended theorem applied to the permission-denied
environment at pid 5. -/
theorem C3_witness : is_process_running permEnv (some 5) none = false :=
  (C3_probe permEnv (some 5) none).2.2 5 rfl rfl rfl

/-! ## C4 -/

/-- Characterization of one status entry's contribution to the active
set. -/
theorem heartbeatActive_eq_some {F : Faults} {now window : Int} {e : String × FileRec}
    {x : Option String} :
    heartbeatActive F now window e = some x ↔
      strEndsWith e.1 ".heartbeat" = true ∧ now - e.2.mtime ≤ window ∧
      F.readFail .status e.1 = false ∧
      ∃ d, e.2.content = .ok d ∧ ∃ tv, d.last_beat = some tv ∧
        ∃ t, tv.parse = some t ∧ now - t ≤ window ∧ x = d.session_id := by
  unfold heartbeatActive
  by_cases h1 : strEndsWith e.1 ".heartbeat" = true
  · simp only [h1, Bool.not_true, Bool.false_eq_true, if_false, true_and]
    by_cases h2 : now - e.2.mtime ≤ window
    · rw [if_neg (by simp only [decide_eq_true_eq]; omega)]
      simp only [h2, true_and]
      cases h3 : F.readFail .status e.1
      · simp only [Bool.false_eq_true, if_false, true_and]
        cases hc : e.2.content with
        | bad =>
          simp [hc]
        | ok d =>
          simp only [hc, Content.ok.injEq]
          cases hb : d.last_beat with
          | none =>
            simp [hb]
          | some tv =>
            cases hp : tv.parse with
            | none =>
              simp [hb, hp]
            | some t =>
              simp only [hp]
              by_cases h4 : now - t ≤ window
              · rw [if_pos (by simpa using h4)]
                constructor
                · intro he
                  cases he
                  exact ⟨d, rfl, tv, hb, t, hp, h4, rfl⟩
                · rintro ⟨d2, hd2, tv2, htv2, t2, ht2, hle2, hx⟩
                  cases hd2
                  rw [hb] at htv2
                  cases htv2
                  rw [hp] at ht2
                  cases ht2
                  rw [hx]
              · rw [if_neg (by simpa using h4)]
                constructor
                · intro he
                  cases he
                · rintro ⟨d2, hd2, tv2, htv2, t2, ht2, hle2, hx⟩
                  cases hd2
                  rw [hb] at htv2
                  cases htv2
                  rw [hp] at ht2
                  cases ht2
                  exact absurd hle2 h4
      · simp only [if_true]
        constructor
        · intro he
          cases he
        · rintro ⟨hf, -⟩
          cases hf
    · rw [if_pos (by simp only [decide_eq_true_eq]; omega)]
      constructor
      · intro he
        cases he
      · rintro ⟨hle, -⟩
        exact absurd hle h2
  · rw [if_pos (by simpa using h1)]
    constructor
    · intro he
      cases he
    · rintro ⟨he, -⟩
      exact absurd he h1

/-- C4, counterexample: a fresh heartbeat file (mtime and `last_beat`
both within the window) whose record has no `session_id` contributes
`data.get('session_id')` — that is, `None` — to the active set, where the
claim requires that a record with a missing `session_id` contribute no
session at all (an empty set here). -/
theorem C4_counterexample :
    get_active_sessions noFaults 100 900 hbNoSession = [none] ∧
    get_active_sessions noFaults 100 900 hbNoSession ≠ [] ∧
    (∀ e ∈ hbNoSession, ∃ d, e.2.content = .ok d ∧ d.session_id = none) := by
  refine ⟨by decide, by decide, ?_⟩
  intro e he
  rcases List.mem_singleton.mp he with rfl
  exact ⟨{ last_beat := some (.ts 100) }, rfl, rfl⟩

/-- C4 (amended): the active session set contains exactly the
`session_id` fields — possibly `None` for a record missing that key — of
the heartbeat-named status files whose mtime and decoded `last_beat` both
lie within the window; unparseable records and records with a missing or
malformed `last_beat` contribute nothing. -/
theorem C4_active_sessions (F : Faults) (now window : Int) (status : Dir)
    (x : Option String) :
    x ∈ get_active_sessions F now window status ↔
      ∃ e ∈ status, strEndsWith e.1 ".heartbeat" = true ∧ now - e.2.mtime ≤ window ∧
        F.readFail .status e.1 = false ∧
        ∃ d, e.2.content = .ok d ∧ ∃ tv, d.last_beat = some tv ∧
          ∃ t, tv.parse = some t ∧ now - t ≤ window ∧ x = d.session_id := by
  unfold get_active_sessions
  rw [List.mem_filterMap]
  constructor
  · rintro ⟨e, he, hact⟩
    exact ⟨e, he, heartbeatActive_eq_some.mp hact⟩
  · rintro ⟨e, he, hconds⟩
    exact ⟨e, he, heartbeatActive_eq_some.mpr hconds⟩

/-! ## C6 -/

/-- A record claimed at instant 100. -/
def dStart : Rec := { started_at := some (.ts 100) }

/-- A task handle for `dStart` under `in_progress/`. -/
def tIP : TaskView := { filename := "x.yaml", data := dStart, pathDir := .inProgress }

/-- A state whose only file is the in-progress `x.yaml` with `dStart`. -/
def sIP : SchedState := { in_progress := [("x.yaml", { mtime := 0, content := .ok dStart })] }

/-- The probe environment of the claim fixtures. -/
def envA : ProcEnv := { localHost := "h", procExists := fun _ => false, kill0 := fun _ => .noProcess }

/-- The invocation context of the claim fixtures (instant 0). -/
def ctxA : Ctx := { now := 0, pid := 7, sessionId := "S", hostname := "h", window := 900, procEnv := envA }

/-- The fixture context at instant 50 — earlier than `dStart`'s claimed
`started_at` of 100 (clock skew). -/
def ctxLate : Ctx := { ctxA with now := 50 }

/-- C6, counterexample: finalizing at instant 50 a task whose stored
`started_at` is 100 persists `duration_seconds = -50` in the `done/`
record — `mark_completed` computes `completed_at − started_at` with no
clamping — where the claim requires a value clamped to at least 0. -/
theorem C6_counterexample :
    (move_to_done noFaults ctxLate tIP true none none sIP).1 = true ∧
    fsGet ((move_to_done noFaults ctxLate tIP true none none sIP).2.dir DirTag.done)
        "x.yaml" =
      some { mtime := 50, content := .ok (mark_completed 50 true none none dStart) } ∧
    (mark_completed 50 true none none dStart).duration_seconds = some (-50) ∧
    ¬ (0 : Int) ≤ -50 := by
  refine ⟨by decide, by decide, by decide, by decide⟩

/-- C6 (amended): a successful `move_to_done` at instant `now` publishes
into `done/` the record stamped by `mark_completed`, whose
`duration_seconds` is exactly `now − started_at` when `started_at`
parses — negative whenever `started_at` lies in the future — and `0` when
`started_at` is absent or malformed; no clamping is applied. -/
theorem C6_duration (c : Ctx) (hsd : c.shutdown = false) (t : TaskView) (success : Bool)
    (results : Option Int) (error : Option String) {s : SchedState} {r0 : FileRec}
    (hget : fsGet (s.dir t.pathDir) t.filename = some r0) :
    fsGet ((move_to_done noFaults c t success results error s).2.dir DirTag.done)
        t.filename =
      some { mtime := c.now,
             content := .ok (mark_completed c.now success results error t.data) } ∧
    (mark_completed c.now success results error t.data).completed_at = some c.now ∧
    (mark_completed c.now success results error t.data).duration_seconds =
      some (match t.data.started_at with
            | some (.ts u) => c.now - u
            | some .malformed => 0
            | none => 0) := by
  refine ⟨?_, rfl, ?_⟩
  · rw [move_to_done_noFaults hsd t success results error hget]
    have hdone_ne : DirTag.inProgress ≠ DirTag.done := by simp
    rw [dir_stDel, if_neg (by simp : DirTag.done ≠ DirTag.inProgress), dir_stSet,
      if_pos rfl, fsGet_fsSet, if_pos rfl]
  · unfold mark_completed
    cases hsa : t.data.started_at with
    | none => rfl
    | some tv => cases tv <;> rfl

/-- C6, witness: the amended theorem applied to the skewed fixture,
where the published duration is negative. -/
theorem C6_witness :
    fsGet ((move_to_done noFaults ctxLate tIP true none none sIP).2.dir DirTag.done)
        "x.yaml" =
      some { mtime := 50, content := .ok (mark_completed 50 true none none dStart) } :=
  (C6_duration ctxLate rfl tIP true none none
    (by decide :
      fsGet (sIP.dir tIP.pathDir) tIP.filename =
        some { mtime := 0, content := .ok dStart })).1

/-! ## C9 -/

/-- C9, counterexample: a `corrupted/` directory whose only entry is the
hidden name `.hidden` reports count 1 — `count_tasks` uses
`len(os.listdir(...))` for `corrupted` — where the claim's visible-entry
count is 0. -/
theorem C9_counterexample :
    (count_tasks (some []) (some []) (some []) (some [".hidden"])).corrupted = 1 ∧
    isVisibleName ".hidden" = false := by
  refine ⟨rfl, by decide⟩

/-- C9 (amended): `count_tasks` reports the number of visible entries for
`todo`, `in_progress` and `done`, but the number of **all** directory
entries for `corrupted`; every missing directory reports 0. -/
theorem C9_counts (tL iL dL cL : Option (List String)) :
    (count_tasks tL iL dL cL).todo = (get_yaml_files_at tL).length ∧
    (count_tasks tL iL dL cL).in_progress = (get_yaml_files_at iL).length ∧
    (count_tasks tL iL dL cL).done = (get_yaml_files_at dL).length ∧
    (cL = none → (count_tasks tL iL dL cL).corrupted = 0) ∧
    (∀ l, cL = some l → (count_tasks tL iL dL cL).corrupted = l.length) ∧
    (tL = none → (count_tasks tL iL dL cL).todo = 0) ∧
    (iL = none → (count_tasks tL iL dL cL).in_progress = 0) ∧
    (dL = none → (count_tasks tL iL dL cL).done = 0) := by
  refine ⟨rfl, rfl, rfl, ?_, ?_, ?_, ?_, ?_⟩
  · intro h
    subst h
    rfl
  · intro l h
    subst h
    rfl
  · intro h
    subst h
    rfl
  · intro h
    subst h
    rfl
  · intro h
    subst h
    rfl

/-- C9, witness: the amended theorem applied to a mixed listing. -/
theorem C9_witness :
    (count_tasks (some ["a.yaml", ".b.yaml"]) none (some []) (some [".hidden", "c.txt"])).todo =
      (get_yaml_files_at (some ["a.yaml", ".b.yaml"])).length ∧
    (count_tasks (some ["a.yaml", ".b.yaml"]) none (some []) (some [".hidden", "c.txt"])).corrupted = 2 ∧
    (count_tasks (some ["a.yaml", ".b.yaml"]) none (some []) (some [".hidden", "c.txt"])).in_progress = 0 := by
  have h := C9_counts (some ["a.yaml", ".b.yaml"]) none (some []) (some [".hidden", "c.txt"])
  exact ⟨h.1, h.2.2.2.2.1 [".hidden", "c.txt"] rfl, h.2.2.2.2.2.2.1 rfl⟩

/-! ## C5 -/

/-- A queue built by three `create_task` calls: priorities 1, 10 and 3,
listed in creation order `a.yaml`, `b.yaml`, `c.yaml`. -/
def sPrio : SchedState :=
  (create_task noFaults ctxA { priority := some 3 } (some "c") "r"
    ((create_task noFaults ctxA { priority := some 10 } (some "b") "r"
      ((create_task noFaults ctxA { priority := some 1 } (some "a") "r" {}).2)).2)).2

/-- C5, code bug: with todo entries of priorities 1, 10 and 3,
`get_next_task` returns the first-listed, priority-1 task rather than the
priority-10 one. The module `scheduler.py` never imports `yaml`, so
`_get_task_priority` raises `NameError` at `yaml.safe_load`, its
`except Exception` swallows it and returns 0 for every file; the
descending stable sort on the all-zero keys keeps listing order, and the
head of the listing is decoded and returned. -/
theorem C5_priority_bug :
    get_yaml_files sPrio.todo = ["a.yaml", "b.yaml", "c.yaml"] ∧
    fsGet sPrio.todo "b.yaml" =
      some { mtime := 0, content := .ok (createdRec ctxA { priority := some 10 }) } ∧
    (createdRec ctxA { priority := some 10 }).priority = some 10 ∧
    (get_next_task noFaults ctxA false sPrio).1 =
      some { filename := "a.yaml", data := createdRec ctxA { priority := some 1 },
             pathDir := .todo } ∧
    (createdRec ctxA { priority := some 1 }).priority = some 1 := by
  refine ⟨by decide, by decide, rfl, by decide, rfl⟩

/-! ## C10 -/

/-- The fault oracle under which reading `todo/a.yaml` raises. -/
def F_readA : Faults :=
  { noFaults with readFail := fun t n => t == DirTag.todo && n == "a.yaml" }

/-- A queue built by two `create_task` calls: `a.yaml` then `b.yaml`. -/
def sTwo : SchedState :=
  (create_task noFaults ctxA { priority := some 5 } (some "b") "r"
    ((create_task noFaults ctxA { priority := some 9 } (some "a") "r" {}).2)).2

/-- C10: a reachable state (two `create_task` calls) with two visible
todo entries on which `get_next_task` returns `None`: loading the
selected head candidate `a.yaml` fails, the raised error is caught by the
operation's `except` and `None` is returned without attempting the
remaining readable candidate — under the fault-free oracle the same call
succeeds. -/
theorem C10_claim_vs_todo :
    (get_yaml_files sTwo.todo).length = 2 ∧
    (get_next_task F_readA ctxA false sTwo).1 = none ∧
    (get_next_task noFaults ctxA false sTwo).1 ≠ none := by
  refine ⟨by decide, by decide, by decide⟩

/-! ## C7 -/

/-- A `safe_rename` call whose source and destination both differ from a
lookup point leaves that lookup unchanged, for every fault outcome. -/
theorem safe_rename_fsGet_other (F : Faults) (sd : DirTag) (sn : String) (dd : DirTag)
    (dn : String) (s : SchedState) {u : DirTag} {n : String}
    (h1 : u ≠ sd ∨ n ≠ sn) (h2 : u ≠ dd ∨ n ≠ dn) :
    fsGet ((safe_rename F sd sn dd dn s).dir u) n = fsGet (s.dir u) n := by
  unfold safe_rename
  cases fsGet (s.dir sd) sn with
  | none => rfl
  | some r =>
    cases F.renameRes sd sn dd dn with
    | ok =>
      simp only [dir_stSet, dir_stDel]
      by_cases hud : u = dd
      · rw [if_pos hud, fsGet_fsSet, if_neg (h2.resolve_left (not_not_intro hud))]
        by_cases hds : dd = sd
        · rw [if_pos hds, fsGet_fsDel,
            if_neg (h1.resolve_left (not_not_intro (hud.trans hds)))]
          rw [hud, hds]
        · rw [if_neg hds, hud]
      · rw [if_neg hud]
        by_cases hus : u = sd
        · rw [if_pos hus, fsGet_fsDel, if_neg (h1.resolve_left (not_not_intro hus))]
          rw [hus]
        · rw [if_neg hus]
    | copyNoRemove =>
      rw [dir_stSet]
      by_cases hud : u = dd
      · rw [if_pos hud, fsGet_fsSet, if_neg (h2.resolve_left (not_not_intro hud)), hud]
      · rw [if_neg hud]
    | noop => rfl

/-- An `atomic_write_yaml` that succeeds leaves every other directory
unchanged, for every fault oracle. -/
theorem atomic_write_fsGet_otherDir {F : Faults} {now : Int} {t : DirTag} {nm : String}
    {d : Rec} {s s' : SchedState} (h : atomic_write_yaml F now t nm d s = some s')
    {u : DirTag} (n : String) (hu : u ≠ t) :
    fsGet (s'.dir u) n = fsGet (s.dir u) n := by
  unfold atomic_write_yaml at h
  by_cases hw : F.writeFail t nm = true
  · rw [hw] at h
    cases h
  · rw [if_neg hw] at h
    injection h with h
    rw [← h]
    rw [safe_rename_fsGet_other F t (nm ++ ".tmp") t nm _ (Or.inl hu) (Or.inl hu)]
    rw [dir_stSet, if_neg hu]

/-- One recovery iteration never touches the in-progress entry of a
visible name whose own read is faulted (or of any visible name other than
the one it processes). -/
theorem recover_one_preserves_faulted (F : Faults) (c : Ctx) (active : List (Option String))
    {x : String} (hxv : isVisibleName x = true) (hx : F.readFail .inProgress x = true)
    (y : String) (acc : Int × SchedState) :
    fsGet ((recover_one F c active acc y).2.dir DirTag.inProgress) x =
      fsGet (acc.2.dir DirTag.inProgress) x := by
  rcases acc with ⟨k, s⟩
  unfold recover_one
  by_cases hy : F.readFail .inProgress y = true
  · rw [if_pos hy]
  · rw [if_neg hy]
    have hyx : y ≠ x := fun he => hy (he ▸ hx)
    have hxy : x ≠ y := fun he => hyx he.symm
    cases hget : fsGet s.in_progress y with
    | none => rfl
    | some r =>
      dsimp only
      cases hc : r.content with
      | bad => rfl
      | ok d =>
        dsimp only
        cases hst : is_stale_record active c.procEnv c.now c.window d with
        | false =>
          simp only [Bool.false_eq_true, if_false]
        | true =>
          simp only [if_true]
          have hmark : x ≠ "." ++ y ++ ".recovering" :=
            vis_ne_hidden hxv (isVisibleName_dotpre y ".recovering")
          have hne : DirTag.inProgress ≠ DirTag.todo := by decide
          have g1 : fsGet ((safe_rename F .inProgress y .inProgress
              ("." ++ y ++ ".recovering") s).dir DirTag.inProgress) x =
              fsGet (s.dir DirTag.inProgress) x :=
            safe_rename_fsGet_other F _ _ _ _ s (Or.inr hxy) (Or.inr hmark)
          cases hw : atomic_write_yaml F c.now .todo (y ++ ".tmp") (recoveredRec c d)
              (safe_rename F .inProgress y .inProgress ("." ++ y ++ ".recovering") s) with
          | none =>
            dsimp only
            exact g1
          | some s2 =>
            dsimp only
            rw [show (try_remove (safe_rename F DirTag.todo (y ++ ".tmp") DirTag.todo y s2)
                DirTag.inProgress ("." ++ y ++ ".recovering")) =
              stDel (safe_rename F DirTag.todo (y ++ ".tmp") DirTag.todo y s2)
                DirTag.inProgress ("." ++ y ++ ".recovering") from rfl]
            rw [dir_stDel, if_pos rfl, fsGet_fsDel, if_neg hmark]
            rw [safe_rename_fsGet_other F DirTag.todo (y ++ ".tmp") DirTag.todo y s2
              (Or.inl hne) (Or.inl hne)]
            rw [atomic_write_fsGet_otherDir hw x hne]
            exact g1

/-- The recovery scan's fold never touches the in-progress entry of a
visible name whose own read is faulted: the faulted entry is skipped and
the scan continues over the others. -/
theorem recover_fold_preserves_faulted (F : Faults) (c : Ctx) (active : List (Option String))
    {x : String} (hxv : isVisibleName x = true) (hx : F.readFail .inProgress x = true)
    (files : List String) :
    ∀ acc : Int × SchedState,
      fsGet ((files.foldl (recover_one F c active) acc).2.dir DirTag.inProgress) x =
        fsGet (acc.2.dir DirTag.inProgress) x := by
  induction files with
  | nil => intro acc; rfl
  | cons y ys ih =>
    intro acc
    rw [List.foldl_cons, ih]
    exact recover_one_preserves_faulted F c active hxv hx y acc

/-- `recover_stale_tasks` leaves a visible in-progress entry whose read is
faulted exactly where it was: the per-entry failure is isolated. -/
theorem recover_preserves_faulted (F : Faults) (c : Ctx)
    {x : String} (hxv : isVisibleName x = true) (hx : F.readFail .inProgress x = true)
    (s : SchedState) :
    fsGet ((recover_stale_tasks F c s).2.dir DirTag.inProgress) x =
      fsGet (s.dir DirTag.inProgress) x := by
  simp only [recover_stale_tasks]
  by_cases hl : F.lockFail "stale_check" = true
  · rw [if_pos hl]
  · rw [if_neg hl]
    exact recover_fold_preserves_faulted F c _ hxv hx _ _

/-- C7: total error containment. For every state, every invocation
context and every fault oracle: a `stale_check` lock failure makes
`recover_stale_tasks` return count 0 with the state untouched; a
`todo_lock` failure makes `get_next_task` return `None`; a `task_move`
failure makes `move_to_in_progress` return `None`; a `task_done` failure
makes `move_to_done` return `False`; a `task_create` failure makes
`create_task` return `None`; `report_progress` returns `False` on every
input (the missing `yaml` import makes its decode raise, and the raise is
caught); a write failure of the staged `.tmp` file makes
`move_to_in_progress` return `None`, `move_to_done` return `False` and
`create_task` return `None`; and a per-entry read failure during the
recovery scan of a visible in-progress entry leaves that entry exactly in
place while the scan continues. No operation's embedding has an undefined
(raising) outcome: each returns its defined failure value. -/
theorem C7_containment (F : Faults) (c : Ctx) (s : SchedState) (t : TaskView)
    (check_stale success : Bool) (results pct : Option Int) (error msg : Option String)
    (task_data : Rec) (task_id : Option String) (rand : String)
    {x : String} (hxv : isVisibleName x = true)
    (hx : F.readFail .inProgress x = true) :
    (F.lockFail "stale_check" = true → recover_stale_tasks F c s = (0, s)) ∧
    (F.lockFail "todo_lock" = true → (get_next_task F c check_stale s).1 = none) ∧
    (F.lockFail "task_move" = true → (move_to_in_progress F c t s).1 = none) ∧
    (F.lockFail "task_done" = true →
      (move_to_done F c t success results error s).1 = false) ∧
    (F.lockFail "task_create" = true →
      (create_task F c task_data task_id rand s).1 = none) ∧
    ((report_progress F c t pct msg s).1 = false) ∧
    (F.writeFail .inProgress (t.filename ++ ".tmp") = true →
      (move_to_in_progress F c t s).1 = none) ∧
    (F.writeFail .done (t.filename ++ ".tmp") = true →
      (move_to_done F c t success results error s).1 = false) ∧
    (F.writeFail .todo (createName c task_id rand ++ ".tmp") = true →
      (create_task F c task_data task_id rand s).1 = none) ∧
    (fsGet ((recover_stale_tasks F c s).2.dir DirTag.inProgress) x =
      fsGet (s.dir DirTag.inProgress) x) := by
  refine ⟨?_, ?_, ?_, ?_, ?_, ?_, ?_, ?_, ?_, ?_⟩
  · intro h
    simp [recover_stale_tasks, h]
  · intro h
    by_cases hs : c.shutdown = true
    · simp [get_next_task, hs]
    · simp [get_next_task, hs, h]
  · intro h
    by_cases hs : c.shutdown = true
    · simp [move_to_in_progress, hs]
    · simp [move_to_in_progress, hs, h]
  · intro h
    by_cases hs : c.shutdown = true
    · simp [move_to_done, hs]
    · simp [move_to_done, hs, h]
  · intro h
    simp [create_task, h]
  · rw [report_progress_state]
  · intro h
    by_cases hs : c.shutdown = true
    · simp [move_to_in_progress, hs]
    · by_cases hl : F.lockFail "task_move" = true
      · simp [move_to_in_progress, hs, hl]
      · cases hg : fsGet (s.dir t.pathDir) t.filename with
        | none => simp [move_to_in_progress, hs, hl, hg]
        | some r => simp [move_to_in_progress, atomic_write_yaml, hs, hl, hg, h]
  · intro h
    by_cases hs : c.shutdown = true
    · simp [move_to_done, hs]
    · by_cases hl : F.lockFail "task_done" = true
      · simp [move_to_done, hs, hl]
      · simp [move_to_done, atomic_write_yaml, hs, hl, h]
  · intro h
    by_cases hl : F.lockFail "task_create" = true
    · simp [create_task, hl]
    · simp [create_task, atomic_write_yaml, hl, h]
  · exact recover_preserves_faulted F c hxv hx s

/-- The all-failing oracle of the C7 witness: every lock acquisition
fails, every write fails, and reading `in_progress/x.yaml` fails. -/
def F_all : Faults :=
  { noFaults with
      lockFail := fun _ => true,
      writeFail := fun _ _ => true,
      readFail := fun t n => t == DirTag.inProgress && n == "x.yaml" }

/-- C7 witness: the containment theorem instantiated on the all-failing
oracle over the one-task fixture state. -/
theorem C7_witness :
    (get_next_task F_all ctxA false sIP).1 = none ∧
    (move_to_done F_all ctxA tIP true none none sIP).1 = false ∧
    (create_task F_all ctxA {} none "r" sIP).1 = none ∧
    (report_progress F_all ctxA tIP none none sIP).1 = false ∧
    fsGet ((recover_stale_tasks F_all ctxA sIP).2.dir DirTag.inProgress) "x.yaml" =
      fsGet (sIP.dir DirTag.inProgress) "x.yaml" := by
  have h := @C7_containment F_all ctxA sIP tIP false true none none none none {} none "r"
    "x.yaml" (by decide) (by decide)
  exact ⟨h.2.1 (by decide), h.2.2.2.1 (by decide), h.2.2.2.2.1 (by decide),
    h.2.2.2.2.2.1, h.2.2.2.2.2.2.2.2.2⟩

/-! ## C1 -/

/-- A name absent from a directory's key list has no entry. -/
theorem fsGet_eq_none_of_not_mem {d : Dir} {n : String} (h : ¬ n ∈ d.map Prod.fst) :
    fsGet d n = none := by
  induction d with
  | nil => rfl
  | cons e rest ih =>
    rcases e with ⟨m, r⟩
    simp only [List.map_cons, List.mem_cons, not_or] at h
    unfold fsGet
    rw [if_neg (fun he => h.1 he.symm)]
    exact ih h.2

/-- The executable exclusivity check decides the invariant: a name outside
the four directories' key lists is visible nowhere. -/
theorem exclusiveB_iff (s : SchedState) : exclusiveB s = true ↔ ExclusiveInv s := by
  constructor
  · intro h n
    by_cases hm : n ∈ allNames s
    · exact of_decide_eq_true (List.all_eq_true.mp h n hm)
    · have h1 : fsGet s.todo n = none := fsGet_eq_none_of_not_mem fun hc =>
        hm (by simp only [allNames, List.map_append, List.mem_append]; tauto)
      have h2 : fsGet s.in_progress n = none := fsGet_eq_none_of_not_mem fun hc =>
        hm (by simp only [allNames, List.map_append, List.mem_append]; tauto)
      have h3 : fsGet s.done n = none := fsGet_eq_none_of_not_mem fun hc =>
        hm (by simp only [allNames, List.map_append, List.mem_append]; tauto)
      have h4 : fsGet s.corrupted n = none := fsGet_eq_none_of_not_mem fun hc =>
        hm (by simp only [allNames, List.map_append, List.mem_append]; tauto)
      simp [visCount, visIn, SchedState.dir, h1, h2, h3, h4]
  · intro h
    exact List.all_eq_true.mpr fun n _ => decide_eq_true (h n)

/-- A run whose every step meets its operation's `GoodOp` side conditions
at the state it executes in. -/
def GoodRunE : SchedState → List (Ctx × Op) → Prop
  | _, [] => True
  | s, (c, op) :: rest => GoodOp c op s ∧ GoodRunE (runOp noFaults c op s) rest

/-- C1 (amended): starting from a state satisfying invariant I1 — every
filename visible in at most one of `todo/`, `in_progress/`, `done/`,
`corrupted/` — any fault-free sequence of core operations preserves I1,
provided each step meets its side conditions: `create_task`'s target
filename is not already visible in `in_progress/`, `done/` or
`corrupted/` (a colliding `task_id` overwrites silently, breaking I1, as
the counterexample shows), `move_to_in_progress` is called on a task
handle naming one of the four primary directories, and `move_to_done` is
called on a handle naming a primary directory whose entry still exists.
`get_next_task`, `report_progress` and `recover_stale_tasks` need no side
condition. -/
theorem C1_exclusivity (l : List (Ctx × Op)) (s : SchedState)
    (hInv : ExclusiveInv s) (hg : GoodRunE s l) :
    ExclusiveInv (runSeq noFaults l s) := by
  revert hg
  revert hInv
  induction l generalizing s with
  | nil =>
    intro hInv _
    exact hInv
  | cons p rest ih =>
    intro hInv hg
    rcases p with ⟨c, op⟩
    obtain ⟨hg1, hg2⟩ := hg
    exact ih (runOp noFaults c op s) (exclusive_runOp c op s hInv hg1) hg2

/-- C1, counterexample to the unconditional claim: `create_task` with
`task_id = "x"` over a state whose `in_progress/` already holds a visible
`x.yaml` succeeds (no collision check — `os.path.join` + `atomic_write` +
`os.rename` overwrite silently) and leaves `x.yaml` visible in both
`todo/` and `in_progress/`. -/
theorem C1_counterexample :
    ExclusiveInv sIP ∧
    ¬ ExclusiveInv (runOp noFaults ctxA (Op.create {} (some "x") "r") sIP) := by
  constructor
  · exact (exclusiveB_iff sIP).mp (by decide)
  · intro h
    have h1 := h "x.yaml"
    have h2 : visCount (runOp noFaults ctxA (Op.create {} (some "x") "r") sIP)
        "x.yaml" = 2 := by decide
    omega

/-- C1 witness: the preservation theorem applied to a fault-free recovery
pass over the one-task fixture state. -/
theorem C1_witness :
    ExclusiveInv (runSeq noFaults [(ctxA, Op.recover)] sIP) :=
  C1_exclusivity [(ctxA, Op.recover)] sIP ((exclusiveB_iff sIP).mp (by decide))
    ⟨trivial, trivial⟩

/-! ## C8 -/

/-- A state whose only file is an in-progress `x.yaml` carrying
`retries: 3` under a session absent from `status/`: stale on sight. -/
def sX : SchedState :=
  { in_progress := [("x.yaml",
      { mtime := 0, content := .ok { session_id := some "T", retries := some 3 } })] }

/-- C8 (amended): along any fault-free run from a state satisfying I1,
the persisted `retries` of a filename never decreases, provided each step
meets its side conditions: `create_task`'s target filename is fresh in
all four primary directories (creating over an existing `todo/` entry
resets `retries` to 0, as the counterexample shows), and each move is
invoked on a handle naming a primary directory whose entry still holds
exactly the handle's snapshot (a stale handle republishes the old record
over the current one). -/
theorem C8_retries_monotone (l : List (Ctx × Op)) (s : SchedState)
    (hInv : ExclusiveInv s) (hgr : GoodRun s l) (n : String) (r r' : Int)
    (hr : persistedRetries s n = some r)
    (hr' : persistedRetries (runSeq noFaults l s) n = some r') :
    r ≤ r' := by
  obtain ⟨q, hq, hle⟩ := retries_runSeq l s hInv hgr hr
  rw [hq] at hr'
  injection hr' with hr'
  omega

/-- C8, counterexample to the unconditional claim: a recovery bumps the
stale `x.yaml` to `retries: 4` and republishes it into `todo/`; a
subsequent `create_task` with the colliding `task_id = "x"` overwrites it
with a fresh record whose `retries` is 0 — the persisted value drops from
3 to 0 across a sequence of core operations. -/
theorem C8_counterexample :
    persistedRetries sX "x.yaml" = some 3 ∧
    persistedRetries (runSeq noFaults
        [(ctxA, Op.recover), (ctxA, Op.create {} (some "x") "r")] sX) "x.yaml" =
      some 0 ∧
    ¬ ((3 : Int) ≤ 0) := by
  refine ⟨by decide, by decide, by decide⟩

/-- C8 witness: monotonicity applied to a single fault-free recovery pass
over the stale fixture — the persisted value rises from 3 to 4. -/
theorem C8_witness :
    persistedRetries sX "x.yaml" = some 3 ∧
    persistedRetries (runSeq noFaults [(ctxA, Op.recover)] sX) "x.yaml" = some 4 ∧
    (3 : Int) ≤ 4 := by
  refine ⟨by decide, by decide, ?_⟩
  exact C8_retries_monotone [(ctxA, Op.recover)] sX ((exclusiveB_iff sX).mp (by decide))
    ⟨trivial, trivial⟩ "x.yaml" 3 4 (by decide) (by decide)

end GdriveSched
